import Mathlib

/-!
# Relay: order admission gateway and chain accessor

A shallow embedding of `gateway/gateway.go` (the filter pipeline run by
`HandleOrder`) and of the batching operations of the chain accessor that
`ethaccessor/accessor_test.go` exercises.

Conventions of the embedding:

* `*big.Int` is `Option Int` (`none` is the nil pointer), `*big.Rat` is `Option Rat`;
* a Go `map[K]bool` is an association list read with `List.lookup`;
* a function that can hit a run-time panic returns `Option`, `none` being the panic;
* a method with a pointer receiver and a pointer argument returns the receiver and
  the pointee as they are after the call;
* package-level variables and the event bus are fields of an explicit `World`.
-/

set_option autoImplicit false

namespace types

/-- A 20-byte account or token address. -/
abbrev Address := Nat

/-- A 32-byte content hash. -/
abbrev Hash := Nat

/-- Modelled from the spec: the declaration of `types.Order` is not part of the sources at
hand; the fields are the attributes the data model lists (the numeric ones are `*big.Int`,
as `accessor_test.go` uses them). -/
structure Order where
  TokenS : Address
  TokenB : Address
  AmountS : Option Int
  AmountB : Option Int
  Timestamp : Option Int
  Ttl : Option Int
  Salt : Option Int
  LrcFee : Option Int
  BuyNoMoreThanAmountB : Bool
  MarginSplitPercentage : Nat
  V : Nat
  R : Nat
  S : Nat
  Owner : Address
  Price : Option Rat
  Hash : Hash
deriving DecidableEq, Repr

/-- The fields of an order other than the two derived ones (`Hash`, `Price`). -/
structure OrderContent where
  TokenS : Address
  TokenB : Address
  AmountS : Option Int
  AmountB : Option Int
  Timestamp : Option Int
  Ttl : Option Int
  Salt : Option Int
  LrcFee : Option Int
  BuyNoMoreThanAmountB : Bool
  MarginSplitPercentage : Nat
  V : Nat
  R : Nat
  S : Nat
  Owner : Address
deriving DecidableEq, Repr

/-- The content of an order: every field but `Hash` and `Price`. -/
def Order.content (o : Order) : OrderContent :=
  { TokenS := o.TokenS, TokenB := o.TokenB, AmountS := o.AmountS, AmountB := o.AmountB,
    Timestamp := o.Timestamp, Ttl := o.Ttl, Salt := o.Salt, LrcFee := o.LrcFee,
    BuyNoMoreThanAmountB := o.BuyNoMoreThanAmountB,
    MarginSplitPercentage := o.MarginSplitPercentage,
    V := o.V, R := o.R, S := o.S, Owner := o.Owner }

/-- Modelled from the spec: `types.OrderState` is declared outside the sources at hand; it
embeds the raw order, and its extended fields (filled and cancelled amounts) belong to the
order manager. -/
structure OrderState where
  RawOrder : Order
  FilledAmount : Option Int
  CancelledAmount : Option Int
deriving DecidableEq, Repr

/-- The primitives of package `types` and of the crypto library that the gateway calls and
whose code is not part of the sources at hand. They are parameters of the embedding. -/
structure Env where
  /-- The digest over the content of an order. -/
  digest : OrderContent → Hash
  /-- The quotient `amountS / amountB` that `GeneratePrice` stores. -/
  ratio : Option Int → Option Int → Option Rat
  /-- Signer recovery from a hash and the signature values `v`, `r`, `s`. -/
  recover : Hash → Nat → Nat → Nat → Except String Address
  /-- The `types.HexToAddress` conversion. -/
  HexToAddress : String → Address
  /-- The `Hash.Hex` rendering. -/
  hashHex : Hash → String
  /-- The `Address.Hex` rendering. -/
  addressHex : Address → String

/-- Modelled from the spec: `Order.GenerateHash` is not part of the sources at hand. The
hash is a pure deterministic function of the canonical fields of the order: it reads
neither the derived hash nor the derived price. -/
def Order.GenerateHash (env : Env) (o : Order) : types.Hash :=
  env.digest o.content

/-- Modelled from the spec: `Order.GeneratePrice` is not part of the sources at hand. The
price is derived from amountS and amountB and stored in the order. -/
def Order.GeneratePrice (env : Env) (o : Order) : Order :=
  { o with Price := env.ratio o.AmountS o.AmountB }

/-- Modelled from the spec: `Order.SignerAddress` is not part of the sources at hand. The
signer is recovered from the hash the order carries and its signature fields. -/
def Order.SignerAddress (env : Env) (o : Order) : Except String types.Address :=
  env.recover o.Hash o.V o.R o.S

/-- The `String` method of `*big.Int`, which prints a nil pointer as `<nil>`. -/
def bigString : Option Int → String
  | none => "<nil>"
  | some n => toString n

/-- The `Cmp` method of `*big.Int` on two non-nil operands. -/
def bigCmp (x y : Int) : Int :=
  if x < y then -1 else if x = y then 0 else 1

end types

namespace eventemitter

/-- The topics of the event bus that the gateway touches. -/
inductive Topic where
  | Gateway
  | OrderBookGateway
deriving DecidableEq, Repr

/-- The functions registered as handlers. -/
inductive Handler where
  | HandleOrder
deriving DecidableEq, Repr

/-- A subscriber of a topic. -/
structure Watcher where
  Concurrent : Bool
  Handle : Handler
deriving DecidableEq, Repr

end eventemitter

namespace log

/-- The severity of a log line. -/
inductive Level where
  | Error
  | Debug
deriving DecidableEq, Repr

end log

namespace config

/-- The options of the base filter. -/
structure BaseFilterOptions where
  MinLrcFee : Int
deriving DecidableEq, Repr

/-- The options of a token filter: hex addresses allowed and denied. -/
structure TokenFilterOptions where
  Allow : List String
  Denied : List String
deriving DecidableEq, Repr

/-- The gateway section of the configuration. -/
structure GatewayFiltersOptions where
  BaseFilter : BaseFilterOptions
  TokenSFilter : TokenFilterOptions
  TokenBFilter : TokenFilterOptions
deriving DecidableEq, Repr

end config

namespace gateway

open types

/-- A Go `map[types.Address]bool`. -/
abbrev AddressMap := List (Address × Bool)

/-- The assignment `m[k] = v`. -/
def AddressMap.set (m : AddressMap) (k : Address) (v : Bool) : AddressMap :=
  (k, v) :: m.filter (fun p => p.1 != k)

/-- The presence test `_, ok := m[k]`. -/
def AddressMap.has (m : AddressMap) (k : Address) : Bool :=
  (m.lookup k).isSome

/-- What a call `v.filter(o)` leaves behind: the receiver and the order after the call,
and the two returned values. -/
structure FilterRun (φ : Type) where
  self : φ
  ord : Order
  valid : Bool
  err : Option String
deriving DecidableEq, Repr

structure BaseFilter where
  MinLrcFee : Int
deriving DecidableEq, Repr

structure SignFilter where
deriving DecidableEq, Repr

structure TokenSFilter where
  AllowTokens : AddressMap
  DeniedTokens : AddressMap
deriving DecidableEq, Repr

structure TokenBFilter where
  AllowTokens : AddressMap
  DeniedTokens : AddressMap
deriving DecidableEq, Repr

/-- The method `(f *BaseFilter) filter`. Comparing with a nil `LrcFee` panics. -/
def BaseFilter.filter (env : Env) (f : BaseFilter) (o : Order) :
    Option (FilterRun BaseFilter) :=
  if o.TokenB = o.TokenS then
    some ⟨f, o, false, some ("order " ++ env.hashHex o.Hash ++ " tokenB == tokenS")⟩
  else
    match o.LrcFee with
    | none => none
    | some fee =>
      if bigCmp f.MinLrcFee fee ≥ 0 then
        some ⟨f, o, false, some ("order " ++ env.hashHex o.Hash ++ " lrcFee too tiny")⟩
      else
        some ⟨f, o, true, none⟩

/-- The method `(f *SignFilter) filter`: it first stores the recomputed hash in the order. -/
def SignFilter.filter (env : Env) (f : SignFilter) (o : Order) :
    Option (FilterRun SignFilter) :=
  let o1 : Order := { o with Hash := o.GenerateHash env }
  match o1.SignerAddress env with
  | .error err => some ⟨f, o1, false, some err⟩
  | .ok addr =>
    if addr ≠ o1.Owner then
      some ⟨f, o1, false, some "o.Owner and signeraddress are not match."⟩
    else
      some ⟨f, o1, true, none⟩

/-- The method `(f *TokenSFilter) filter`. -/
def TokenSFilter.filter (env : Env) (f : TokenSFilter) (o : Order) :
    Option (FilterRun TokenSFilter) :=
  if !f.AllowTokens.has o.TokenS then
    some ⟨f, o, false,
      some ("tokenS filter allowTokens do not contain " ++ env.addressHex o.TokenS)⟩
  else if f.DeniedTokens.has o.TokenS then
    some ⟨f, o, false,
      some ("tokenS filter deniedTokens contain " ++ env.addressHex o.TokenS)⟩
  else
    some ⟨f, o, true, none⟩

/-- The method `(f *TokenBFilter) filter`. -/
def TokenBFilter.filter (env : Env) (f : TokenBFilter) (o : Order) :
    Option (FilterRun TokenBFilter) :=
  if !f.AllowTokens.has o.TokenB then
    some ⟨f, o, false,
      some ("tokenB filter allowTokens do not contain " ++ env.addressHex o.TokenB)⟩
  else if f.DeniedTokens.has o.TokenB then
    some ⟨f, o, false,
      some ("tokenB filter deniedTokens contain " ++ env.addressHex o.TokenB)⟩
  else
    some ⟨f, o, true, none⟩

/-- The implementations of the interface `Filter` that the package declares. -/
inductive Filter where
  | base (f : BaseFilter)
  | sign (f : SignFilter)
  | tokenS (f : TokenSFilter)
  | tokenB (f : TokenBFilter)
deriving DecidableEq, Repr

/-- Lifts the result of a concrete filter to the interface type. -/
def FilterRun.lift {φ : Type} (k : φ → Filter) (r : FilterRun φ) : FilterRun Filter :=
  ⟨k r.self, r.ord, r.valid, r.err⟩

/-- The interface call `v.filter(o)`, dispatched on the dynamic type of `v`. -/
def Filter.filter (env : Env) (v : Filter) (o : Order) : Option (FilterRun Filter) :=
  match v with
  | .base f => (f.filter env o).map (FilterRun.lift Filter.base)
  | .sign f => (f.filter env o).map (FilterRun.lift Filter.sign)
  | .tokenS f => (f.filter env o).map (FilterRun.lift Filter.tokenS)
  | .tokenB f => (f.filter env o).map (FilterRun.lift Filter.tokenB)

/-- The state outside the order that the gateway reads and writes: the package-level
variable `filters`, the subscriptions and the published events of the event bus, and the
log. -/
structure World where
  filters : List Filter
  watchers : List (eventemitter.Topic × eventemitter.Watcher)
  emitted : List (eventemitter.Topic × OrderState)
  logs : List (log.Level × String)
deriving DecidableEq, Repr

/-- The empty world of a fresh process. -/
def World.fresh : World := ⟨[], [], [], []⟩

/-- The loop `for _, v := range list { m[HexToAddress(v)] = true }`. -/
def fillTokens (env : Env) (list : List String) (m : AddressMap) : AddressMap :=
  list.foldl (fun acc v => acc.set (env.HexToAddress v) true) m

/-- The function `Initialize`. -/
def Initialize (env : Env) (options : config.GatewayFiltersOptions) (w : World) : World :=
  let gatewayWatcher : eventemitter.Watcher := ⟨false, eventemitter.Handler.HandleOrder⟩
  let watchers := w.watchers ++ [(eventemitter.Topic.Gateway, gatewayWatcher)]
  let baseFilter : BaseFilter := ⟨options.BaseFilter.MinLrcFee⟩
  let tokenSFilter : TokenSFilter :=
    ⟨fillTokens env options.TokenSFilter.Allow [], fillTokens env options.TokenSFilter.Denied []⟩
  let tokenBFilter : TokenBFilter :=
    ⟨fillTokens env options.TokenBFilter.Allow [], fillTokens env options.TokenBFilter.Denied []⟩
  let signFilter : SignFilter := ⟨⟩
  let filters := w.filters ++ [Filter.base baseFilter]
  let filters := filters ++ [Filter.sign signFilter]
  let filters := filters ++ [Filter.tokenS tokenSFilter]
  let filters := filters ++ [Filter.tokenB tokenBFilter]
  { w with watchers := watchers, filters := filters }

/-- The state of the loop of `HandleOrder` when it stops: the filters and the order as the
calls left them, and the error of the rejecting filter if one rejected. -/
structure LoopEnd where
  filters : List Filter
  ord : Order
  rejected : Option String
deriving DecidableEq, Repr

/-- The loop `for _, v := range filters` of `HandleOrder`. A filter that rejects with a
nil error makes `err.Error()` panic. -/
def runFilters (env : Env) : List Filter → Order → Option LoopEnd
  | [], o => some ⟨[], o, none⟩
  | v :: rest, o =>
    match v.filter env o with
    | none => none
    | some r =>
      if !r.valid then
        match r.err with
        | none => none
        | some e => some ⟨r.self :: rest, r.ord, some e⟩
      else
        match runFilters env rest r.ord with
        | none => none
        | some l => some ⟨r.self :: l.filters, l.ord, l.rejected⟩

/-- What `HandleOrder` leaves behind: the world and the order after the call and the
returned error (`none` is nil). -/
structure Handled where
  world : World
  ord : Order
  err : Option String
deriving DecidableEq, Repr

/-- The function `HandleOrder`, on an input that is an order. -/
def HandleOrder (env : Env) (w : World) (input : Order) : Option Handled :=
  let orderhash := input.GenerateHash env
  let ord : Order := { input with Hash := orderhash }
  let ord := ord.GeneratePrice env
  match runFilters env w.filters ord with
  | none => none
  | some l =>
    match l.rejected with
    | some e =>
      some ⟨{ w with filters := l.filters,
                     logs := w.logs ++ [(log.Level.Error, "gateway filter order error:" ++ e)] },
            l.ord, some e⟩
    | none =>
      let state : OrderState := ⟨l.ord, none, none⟩
      let logs := w.logs ++
        [(log.Level.Debug, "gateway accept new order hash:" ++ env.hashHex orderhash),
         (log.Level.Debug, "gateway accept new order amountS:" ++ bigString l.ord.AmountS),
         (log.Level.Debug, "gateway accept new order amountB:" ++ bigString l.ord.AmountB)]
      some ⟨{ w with filters := l.filters, logs := logs,
                     emitted := w.emitted ++ [(eventemitter.Topic.OrderBookGateway, state)] },
            l.ord, none⟩

/-- The four filters that one call of `Initialize` appends, in the order of the appends. -/
def builtFilters (env : Env) (options : config.GatewayFiltersOptions) : List Filter :=
  [Filter.base ⟨options.BaseFilter.MinLrcFee⟩,
   Filter.sign ⟨⟩,
   Filter.tokenS ⟨fillTokens env options.TokenSFilter.Allow [],
                  fillTokens env options.TokenSFilter.Denied []⟩,
   Filter.tokenB ⟨fillTokens env options.TokenBFilter.Allow [],
                  fillTokens env options.TokenBFilter.Denied []⟩]

/-- The order as `HandleOrder` hands it to the first filter: hash assigned, price derived. -/
def normalize (env : Env) (o : Order) : Order :=
  ({ o with Hash := o.GenerateHash env } : Order).GeneratePrice env

end gateway

/-! ## The chain accessor

The code of package `ethaccessor` is not part of the sources at hand: only its test file
is. The operations that the test file calls are modelled from their specification. -/

namespace ethaccessor

/-- Modelled from the spec: the declaration of `ethaccessor.Transaction` is missing; the
test reads its fields `Hash` and `BlockNumber`. -/
structure Transaction where
  Hash : String
  BlockNumber : Nat
deriving DecidableEq, Repr

/-- Modelled from the spec: the declaration of `ethaccessor.TransactionReceipt` is missing;
the test reads its fields `TransactionHash` and `BlockNumber`. -/
structure TransactionReceipt where
  TransactionHash : String
  BlockNumber : Nat
deriving DecidableEq, Repr

/-- Modelled from the spec: the declaration of `BatchTransactionReq` is missing. One unit
of a batched query: the input key, the output payload and an independent error slot. -/
structure BatchTransactionReq where
  TxHash : String
  TxContent : Transaction
  Err : Option String
deriving DecidableEq, Repr

/-- Modelled from the spec: the declaration of `BatchTransactionRecipientReq` is missing.
The same unit, with a receipt as payload. -/
structure BatchTransactionRecipientReq where
  TxHash : String
  TxContent : TransactionReceipt
  Err : Option String
deriving DecidableEq, Repr

/-- Modelled from the spec: the declaration of `BlockWithTxHash` is missing. A lightweight
block view: block number, transaction hashes, optional full bodies. -/
structure BlockWithTxHash where
  Number : Nat
  Transactions : List String
  Bodies : Option (List Transaction)
deriving DecidableEq, Repr

/-- Modelled from the spec: the declaration of `EthNodeAccessor` is missing. The accessor
is bound to a node, which answers the read methods: a transaction or a receipt by hash
(a per-request error for an unknown hash) and the content of a block by number. Round
trips are numbered, and `fault n` is the transport error, if any, of round trip `n`. -/
structure EthNodeAccessor where
  transaction : String → Except String Transaction
  receipt : String → Except String TransactionReceipt
  blockHashes : Nat → List String
  blockBodies : Nat → List Transaction
  fault : Nat → Option String

/-- Cuts a list into consecutive pieces of `size` elements, the last one possibly shorter;
`fuel` bounds the number of pieces. -/
def chunksFuel {α : Type} (size : Nat) : Nat → List α → List (List α)
  | 0, _ => []
  | fuel + 1, xs =>
    match xs with
    | [] => []
    | x :: rest => (x :: rest).take size :: chunksFuel size fuel ((x :: rest).drop size)

/-- Modelled from the spec: the partition of a request slice into chunks of at most
`batchSize`. A list of `n` elements has at most `n` chunks, which bounds the fuel. The
spec leaves `batchSize = 0` open; a chunk then holds one request. -/
def chunks {α : Type} (batchSize : Nat) (xs : List α) : List (List α) :=
  chunksFuel (max batchSize 1) xs.length xs

/-- What a batch call leaves behind: the requests as written back, the number of round
trips made so far, and the returned error (`none` is nil). -/
structure Batched (ρ : Type) where
  reqs : List ρ
  trips : Nat
  err : Option String
deriving DecidableEq, Repr

/-- Modelled from the spec: one batched round trip per chunk, results written back in
place. A transport fault fails the call as a whole and leaves the chunk and the ones after
it as they were. -/
def sendChunks {ρ : Type} (fault : Nat → Option String) (fill : ρ → ρ) :
    Nat → List (List ρ) → Batched ρ
  | trips, [] => ⟨[], trips, none⟩
  | trips, c :: cs =>
    match fault trips with
    | some e => ⟨(c :: cs).flatten, trips + 1, some e⟩
    | none =>
      let r := sendChunks fault fill (trips + 1) cs
      ⟨c.map fill ++ r.reqs, r.trips, r.err⟩

/-- Modelled from the spec: the answer of the node written into a transaction request. A
failure goes to the error slot of that request only. -/
def fillTransaction (a : EthNodeAccessor) (req : BatchTransactionReq) : BatchTransactionReq :=
  match a.transaction req.TxHash with
  | .ok tx => { req with TxContent := tx, Err := none }
  | .error e => { req with Err := some e }

/-- Modelled from the spec: the answer of the node written into a receipt request. -/
def fillRecipient (a : EthNodeAccessor) (req : BatchTransactionRecipientReq) :
    BatchTransactionRecipientReq :=
  match a.receipt req.TxHash with
  | .ok rc => { req with TxContent := rc, Err := none }
  | .error e => { req with Err := some e }

/-- Modelled from the spec: `BatchTransactions` is not part of the sources at hand. It
partitions the requests into chunks of at most `batchSize`, issues one round trip per
chunk and writes the results back by position. `trips` counts the round trips made
before the call. -/
def EthNodeAccessor.BatchTransactions (a : EthNodeAccessor) (trips : Nat) (batchSize : Nat)
    (reqs : List BatchTransactionReq) : Batched BatchTransactionReq :=
  sendChunks a.fault (fillTransaction a) trips (chunks batchSize reqs)

/-- Modelled from the spec: `BatchTransactionRecipients` is not part of the sources at
hand. It works as `BatchTransactions`, on receipts. -/
def EthNodeAccessor.BatchTransactionRecipients (a : EthNodeAccessor) (trips : Nat)
    (batchSize : Nat) (reqs : List BatchTransactionRecipientReq) :
    Batched BatchTransactionRecipientReq :=
  sendChunks a.fault (fillRecipient a) trips (chunks batchSize reqs)

/-- The cursor of a block scan: the next number to fetch, the end of the range, the two
options and the blocks fetched ahead and not yet handed out. -/
structure BlockIterator where
  currentNumber : Nat
  endNumber : Nat
  withTxData : Bool
  batchSize : Nat
  prefetched : List BlockWithTxHash
deriving DecidableEq, Repr

/-- Modelled from the spec: the method `BlockIterator` of the accessor is not part of the
sources at hand. It starts a scan of the block numbers of `[startBlock, endBlock)`. -/
def EthNodeAccessor.BlockIterator (_a : EthNodeAccessor) (startBlock endBlock : Nat)
    (includeFullTx : Bool) (batchSize : Nat) : BlockIterator :=
  ⟨startBlock, endBlock, includeFullTx, batchSize, []⟩

/-- The view of block `n` that the node serves. -/
def EthNodeAccessor.blockAt (a : EthNodeAccessor) (includeFullTx : Bool) (n : Nat) :
    BlockWithTxHash :=
  ⟨n, a.blockHashes n, if includeFullTx then some (a.blockBodies n) else none⟩

/-- What `Next` returns: a block, the end-of-range signal, or a transport error. -/
inductive NextResult where
  | block (b : BlockWithTxHash)
  | finished
  | fault (e : String)
deriving DecidableEq, Repr

/-- What a call of `Next` leaves behind: the returned value, the cursor and the number of
round trips made so far. -/
structure Advanced where
  result : NextResult
  iterator : BlockIterator
  trips : Nat
deriving DecidableEq, Repr

/-- Modelled from the spec: `BlockIterator.Next` is not part of the sources at hand. It
returns the next block or signals the end of the range. Blocks are fetched in groups of
up to `batchSize` per round trip; a group holds at least one block (the tests pass
`batchSize = 0` and expect blocks). -/
def BlockIterator.Next (a : EthNodeAccessor) (it : BlockIterator) (trips : Nat) : Advanced :=
  match it.prefetched with
  | b :: rest => ⟨.block b, { it with prefetched := rest }, trips⟩
  | [] =>
    if it.endNumber ≤ it.currentNumber then
      ⟨.finished, it, trips⟩
    else
      match a.fault trips with
      | some e => ⟨.fault e, it, trips + 1⟩
      | none =>
        let n := min (max it.batchSize 1) (it.endNumber - it.currentNumber)
        match (List.range' it.currentNumber n).map (a.blockAt it.withTxData) with
        | [] => ⟨.finished, it, trips + 1⟩
        | b :: rest =>
          ⟨.block b, { it with currentNumber := it.currentNumber + n, prefetched := rest },
            trips + 1⟩

/-- The values returned by `k` successive calls of `Next`. -/
def nexts (a : EthNodeAccessor) : Nat → BlockIterator → Nat → List NextResult
  | 0, _, _ => []
  | k + 1, it, trips =>
    let r := it.Next a trips
    r.result :: nexts a k r.iterator r.trips

/-- The number of round trips that `k` successive calls of `Next` make. -/
def nextsTrips (a : EthNodeAccessor) : Nat → BlockIterator → Nat → Nat
  | 0, _, trips => trips
  | k + 1, it, trips =>
    let r := it.Next a trips
    nextsTrips a k r.iterator r.trips

/-- The cursor `it` stands at block `p` of a scan up to `stop` with option `full`: the
blocks fetched ahead are those from `p` up to the next number to fetch. -/
def BlockIterator.standsAt (a : EthNodeAccessor) (it : BlockIterator) (p stop : Nat)
    (full : Bool) : Prop :=
  it.endNumber = stop ∧ it.withTxData = full ∧
  p ≤ it.currentNumber ∧ it.currentNumber ≤ stop ∧
  it.prefetched = (List.range' p (it.currentNumber - p)).map (a.blockAt full)

end ethaccessor

/-! ## Sample parameters, used to evaluate the definitions on concrete inputs -/

namespace sample

open types gateway

/-- The value of a hexadecimal digit, zero for any other character. -/
def hexDigit (c : Char) : Nat :=
  if c.isDigit then c.toNat - 48
  else if 97 ≤ c.toNat ∧ c.toNat ≤ 102 then c.toNat - 87
  else if 65 ≤ c.toNat ∧ c.toNat ≤ 70 then c.toNat - 55
  else 0

/-- Reads a string of hexadecimal digits as a number. -/
def hexValue (s : String) : Nat :=
  s.data.foldl (fun acc c => 16 * acc + hexDigit c) 0

/-- A toy instance of the primitives: the digest adds up a few fields, a signature with
`v = 27` is signed by the address `r`, and the price is the exact quotient. -/
def env : Env where
  digest := fun c => c.TokenS + 2 * c.TokenB + 3 * c.Owner + 1
  ratio := fun a b =>
    match a, b with
    | some x, some y => some ((x : Rat) / (y : Rat))
    | _, _ => none
  recover := fun _ v r _ => if v = 27 then .ok r else .error "invalid signature"
  HexToAddress := hexValue
  hashHex := fun h => toString h
  addressHex := fun a => toString a

/-- A configuration with minimum fee 1 that allows the tokens 0x0a and 0x0b on both
sides and denies 0x0c on both sides. -/
def options : config.GatewayFiltersOptions :=
  ⟨⟨1⟩, ⟨["0a", "0b"], ["0c"]⟩, ⟨["0a", "0b"], ["0c"]⟩⟩

/-- An order selling token 10 for token 11 with fee 2, signed by its owner 5. -/
def order : Order where
  TokenS := 10
  TokenB := 11
  AmountS := some 100
  AmountB := some 50
  Timestamp := some 1500000000
  Ttl := some 3600
  Salt := some 1
  LrcFee := some 2
  BuyNoMoreThanAmountB := false
  MarginSplitPercentage := 0
  V := 27
  R := 5
  S := 0
  Owner := 5
  Price := none
  Hash := 0

/-- The sample order with a signature made by the address 6, not by its owner 5. -/
def forged : Order := { order with R := 6 }

/-- The sample order turned into a self pair, still with a forged signature. -/
def selfPair : Order := { forged with TokenB := 10 }

/-- The sample order with a fee equal to the minimum and a token that is not allowed. -/
def cheap : Order := { order with LrcFee := some 1, TokenS := 13 }

/-- The forged order without a fee: `LrcFee` is the nil pointer. -/
def forgedNoFee : Order := { forged with LrcFee := none }

open ethaccessor

/-- A toy node: it knows every transaction and receipt but the one with hash `zz`, block
`n` holds the single transaction `0x` followed by `n`, and no round trip fails. -/
def accessor : EthNodeAccessor where
  transaction := fun h =>
    if h = "zz" then .error "not found" else .ok ⟨h, h.length⟩
  receipt := fun h =>
    if h = "zz" then .error "not found" else .ok ⟨h, h.length⟩
  blockHashes := fun n => ["0x" ++ toString n]
  blockBodies := fun n => [⟨"0x" ++ toString n, n⟩]
  fault := fun _ => none

/-- The toy node behind a transport whose first round trip fails. -/
def flaky : EthNodeAccessor :=
  { accessor with fault := fun n => if n = 0 then some "node unreachable" else none }

/-- Five transaction requests, the third of which names an unknown hash. -/
def requests : List BatchTransactionReq :=
  [⟨"0xa", ⟨"", 0⟩, none⟩, ⟨"0xbb", ⟨"", 0⟩, none⟩, ⟨"zz", ⟨"", 0⟩, none⟩,
   ⟨"0xdddd", ⟨"", 0⟩, none⟩, ⟨"0xe", ⟨"", 0⟩, none⟩]

/-- Three receipt requests, the first of which names an unknown hash. -/
def receiptRequests : List BatchTransactionRecipientReq :=
  [⟨"zz", ⟨"", 0⟩, none⟩, ⟨"0xbb", ⟨"", 0⟩, none⟩, ⟨"0xccc", ⟨"", 0⟩, none⟩]

end sample

/-! ## Shared lemmas on the gateway -/

namespace gateway

open types

theorem AddressMap_lookup_filter_ne (m : AddressMap) (a k : Address) (h : k ≠ a) :
    List.lookup k (m.filter (fun p => p.1 != a)) = List.lookup k m := by
  induction m with
  | nil => rfl
  | cons p rest ih =>
    obtain ⟨x, v⟩ := p
    by_cases hx : x = a
    · subst hx
      have hk : (k == x) = false := by simpa using h
      simp [List.filter, List.lookup, hk, ih]
    · have hx2 : (x != a) = true := by simpa using hx
      simp only [List.filter, hx2, List.lookup, ih]

theorem AddressMap_has_set (m : AddressMap) (a k : Address) (v : Bool) :
    (m.set a v).has k = true ↔ k = a ∨ m.has k = true := by
  by_cases h : k = a
  · subst h
    simp [AddressMap.set, AddressMap.has, List.lookup]
  · have hk : (k == a) = false := by simpa using h
    simp [AddressMap.set, AddressMap.has, List.lookup, hk, AddressMap_lookup_filter_ne m a k h, h]

theorem fillTokens_has (env : Env) (list : List String) (m : AddressMap) (k : Address) :
    (fillTokens env list m).has k = true ↔
      k ∈ list.map env.HexToAddress ∨ m.has k = true := by
  induction list generalizing m with
  | nil => simp [fillTokens]
  | cons s rest ih =>
    have := ih (m.set (env.HexToAddress s) true)
    simp only [fillTokens, List.foldl_cons] at this ⊢
    rw [this, AddressMap_has_set]
    simp only [List.map_cons, List.mem_cons]
    tauto

theorem fillTokens_empty_has (env : Env) (list : List String) (k : Address) :
    (fillTokens env list []).has k = true ↔ k ∈ list.map env.HexToAddress := by
  rw [fillTokens_has]
  simp [AddressMap.has]

theorem Initialize_filters (env : Env) (options : config.GatewayFiltersOptions) (w : World) :
    (Initialize env options w).filters = w.filters ++ builtFilters env options := by
  simp [Initialize, builtFilters]

theorem Initialize_emitted (env : Env) (options : config.GatewayFiltersOptions) (w : World) :
    (Initialize env options w).emitted = w.emitted := rfl

theorem normalize_content (env : Env) (o : Order) : (normalize env o).content = o.content := rfl

theorem GenerateHash_normalize (env : Env) (o : Order) :
    (normalize env o).GenerateHash env = o.GenerateHash env := rfl

theorem bigCmp_nonneg_iff (x y : Int) : bigCmp x y ≥ 0 ↔ y ≤ x := by
  unfold bigCmp
  split_ifs with h1 h2
  · constructor
    · intro h; omega
    · intro h; omega
  · constructor
    · intro _; omega
    · intro _; decide
  · constructor
    · intro _; omega
    · intro _; decide

end gateway

namespace gateway

open types

theorem HandleOrder_unfold (env : Env) (w : World) (o : Order) :
    HandleOrder env w o =
      match runFilters env w.filters (normalize env o) with
      | none => none
      | some l =>
        match l.rejected with
        | some e =>
          some ⟨{ w with filters := l.filters,
                         logs := w.logs ++
                           [(log.Level.Error, "gateway filter order error:" ++ e)] },
                l.ord, some e⟩
        | none =>
          some ⟨{ w with
                    filters := l.filters,
                    logs := w.logs ++
                      [(log.Level.Debug,
                          "gateway accept new order hash:" ++ env.hashHex (o.GenerateHash env)),
                       (log.Level.Debug,
                          "gateway accept new order amountS:" ++ bigString l.ord.AmountS),
                       (log.Level.Debug,
                          "gateway accept new order amountB:" ++ bigString l.ord.AmountB)],
                    emitted := w.emitted ++
                      [(eventemitter.Topic.OrderBookGateway, ⟨l.ord, none, none⟩)] },
                l.ord, none⟩ := rfl

theorem BaseFilter_filter_admits (env : Env) (f : BaseFilter) (o : Order) (fee : Int)
    (hpair : o.TokenS ≠ o.TokenB) (hfee : o.LrcFee = some fee) (hmin : f.MinLrcFee < fee) :
    f.filter env o = some ⟨f, o, true, none⟩ := by
  have h1 : ¬ o.TokenB = o.TokenS := fun h => hpair h.symm
  have h2 : ¬ bigCmp f.MinLrcFee fee ≥ 0 := by
    rw [bigCmp_nonneg_iff]; omega
  simp [BaseFilter.filter, h1, hfee, h2]

theorem SignFilter_filter_admits (env : Env) (f : SignFilter) (o : Order)
    (hsig : env.recover (o.GenerateHash env) o.V o.R o.S = .ok o.Owner) :
    f.filter env o = some ⟨f, { o with Hash := o.GenerateHash env }, true, none⟩ := by
  simp [SignFilter.filter, Order.SignerAddress, hsig]

theorem TokenSFilter_filter_admits (env : Env) (f : TokenSFilter) (o : Order)
    (ha : f.AllowTokens.has o.TokenS = true) (hd : f.DeniedTokens.has o.TokenS = false) :
    f.filter env o = some ⟨f, o, true, none⟩ := by
  simp [TokenSFilter.filter, ha, hd]

theorem TokenBFilter_filter_admits (env : Env) (f : TokenBFilter) (o : Order)
    (ha : f.AllowTokens.has o.TokenB = true) (hd : f.DeniedTokens.has o.TokenB = false) :
    f.filter env o = some ⟨f, o, true, none⟩ := by
  simp [TokenBFilter.filter, ha, hd]

theorem normalize_rehash (env : Env) (o : Order) :
    ({ normalize env o with Hash := (normalize env o).GenerateHash env } : Order)
      = normalize env o := rfl

end gateway

namespace gateway

open types

theorem HandleOrder_of_run (env : Env) (w : World) (o : Order) (l : LoopEnd)
    (hrun : runFilters env w.filters (normalize env o) = some l) (hrej : l.rejected = none) :
    ∃ h : Handled,
      HandleOrder env w o = some h ∧ h.err = none ∧ h.ord = l.ord ∧
      h.world.filters = l.filters ∧
      h.world.emitted = w.emitted ++
        [(eventemitter.Topic.OrderBookGateway, ⟨l.ord, none, none⟩)] := by
  rw [HandleOrder_unfold, hrun]
  obtain ⟨fs, ord, rej⟩ := l
  simp only at hrej
  subst hrej
  exact ⟨_, rfl, rfl, rfl, rfl, rfl⟩

theorem runFilters_built_admits (env : Env) (options : config.GatewayFiltersOptions)
    (o : Order) (fee : Int)
    (hpair : o.TokenS ≠ o.TokenB)
    (hfee : o.LrcFee = some fee)
    (hmin : options.BaseFilter.MinLrcFee < fee)
    (hsig : env.recover (o.GenerateHash env) o.V o.R o.S = .ok o.Owner)
    (hSa : o.TokenS ∈ options.TokenSFilter.Allow.map env.HexToAddress)
    (hSd : o.TokenS ∉ options.TokenSFilter.Denied.map env.HexToAddress)
    (hBa : o.TokenB ∈ options.TokenBFilter.Allow.map env.HexToAddress)
    (hBd : o.TokenB ∉ options.TokenBFilter.Denied.map env.HexToAddress) :
    runFilters env (builtFilters env options) (normalize env o)
      = some ⟨builtFilters env options, normalize env o, none⟩ := by
  have hb := BaseFilter_filter_admits env ⟨options.BaseFilter.MinLrcFee⟩ (normalize env o)
    fee hpair hfee hmin
  have hs := SignFilter_filter_admits env ⟨⟩ (normalize env o) hsig
  rw [normalize_rehash] at hs
  have hS := TokenSFilter_filter_admits env
    ⟨fillTokens env options.TokenSFilter.Allow [], fillTokens env options.TokenSFilter.Denied []⟩
    (normalize env o) ((fillTokens_empty_has _ _ _).mpr hSa)
    (by
      rw [Bool.eq_false_iff]
      exact fun h => hSd ((fillTokens_empty_has _ _ _).mp h))
  have hB := TokenBFilter_filter_admits env
    ⟨fillTokens env options.TokenBFilter.Allow [], fillTokens env options.TokenBFilter.Denied []⟩
    (normalize env o) ((fillTokens_empty_has _ _ _).mpr hBa)
    (by
      rw [Bool.eq_false_iff]
      exact fun h => hBd ((fillTokens_empty_has _ _ _).mp h))
  simp [builtFilters, runFilters, Filter.filter, hb, hs, hS, hB, FilterRun.lift]

theorem sample_run :
    runFilters sample.env (Initialize sample.env sample.options World.fresh).filters
        (normalize sample.env sample.order)
      = some ⟨builtFilters sample.env sample.options, normalize sample.env sample.order, none⟩ := by
  rw [Initialize_filters]
  exact runFilters_built_admits sample.env sample.options sample.order 2
    (by decide) rfl (by decide) rfl (by decide) (by decide) (by decide) (by decide)

end gateway

namespace gateway

open types

theorem runFilters_append (env : Env) (pre rest : List Filter) (o : Order) :
    runFilters env (pre ++ rest) o =
      match runFilters env pre o with
      | none => none
      | some l =>
        match l.rejected with
        | some e => some ⟨l.filters ++ rest, l.ord, some e⟩
        | none =>
          match runFilters env rest l.ord with
          | none => none
          | some l2 => some ⟨l.filters ++ l2.filters, l2.ord, l2.rejected⟩ := by
  induction pre generalizing o with
  | nil =>
    simp only [List.nil_append, runFilters]
    cases runFilters env rest o <;> rfl
  | cons v pre ih =>
    simp only [List.cons_append, runFilters]
    cases hv : v.filter env o with
    | none => rfl
    | some r =>
      simp only
      cases hvalid : r.valid with
      | false =>
        cases r.err with
        | none => rfl
        | some e => rfl
      | true =>
        simp only [Bool.not_true, Bool.false_eq_true, if_false]
        have ih2 := ih r.ord
        simp only [List.append_eq] at ih2 ⊢
        rw [ih2]
        cases runFilters env pre r.ord with
        | none => rfl
        | some l =>
          obtain ⟨fs, ord, rej⟩ := l
          cases rej with
          | some e => rfl
          | none =>
            simp only
            cases runFilters env rest ord <;> rfl

theorem runFilters_rejecting_head (env : Env) (v : Filter) (post : List Filter) (o : Order)
    (r : FilterRun Filter) (e : String)
    (hv : v.filter env o = some r) (hvalid : r.valid = false) (herr : r.err = some e) :
    runFilters env (v :: post) o = some ⟨r.self :: post, r.ord, some e⟩ := by
  simp [runFilters, hv, hvalid, herr]

theorem HandleOrder_of_rejecting_run (env : Env) (w : World) (o : Order) (l : LoopEnd)
    (e : String)
    (hrun : runFilters env w.filters (normalize env o) = some l)
    (hrej : l.rejected = some e) :
    ∃ h : Handled,
      HandleOrder env w o = some h ∧ h.err = some e ∧ h.ord = l.ord ∧
      h.world.filters = l.filters ∧ h.world.emitted = w.emitted := by
  rw [HandleOrder_unfold, hrun]
  obtain ⟨fs, ord, rej⟩ := l
  simp only at hrej
  subst hrej
  exact ⟨_, rfl, rfl, rfl, rfl, rfl⟩

theorem BaseFilter_filter_self_pair (env : Env) (f : BaseFilter) (o : Order)
    (hpair : o.TokenS = o.TokenB) :
    f.filter env o
      = some ⟨f, o, false, some ("order " ++ env.hashHex o.Hash ++ " tokenB == tokenS")⟩ := by
  simp [BaseFilter.filter, hpair]

theorem BaseFilter_filter_tiny_fee (env : Env) (f : BaseFilter) (o : Order) (fee : Int)
    (hpair : o.TokenS ≠ o.TokenB) (hfee : o.LrcFee = some fee) (hmin : fee ≤ f.MinLrcFee) :
    f.filter env o
      = some ⟨f, o, false, some ("order " ++ env.hashHex o.Hash ++ " lrcFee too tiny")⟩ := by
  have h1 : ¬ o.TokenB = o.TokenS := fun h => hpair h.symm
  have h2 : bigCmp f.MinLrcFee fee ≥ 0 := (bigCmp_nonneg_iff _ _).mpr hmin
  simp [BaseFilter.filter, h1, hfee, h2]

end gateway

namespace gateway

open types

theorem SignFilter_filter_total (env : Env) (f : SignFilter) (o : Order) :
    ∃ r : FilterRun SignFilter,
      f.filter env o = some r ∧
      r.ord = { o with Hash := o.GenerateHash env } ∧
      (r.valid = true ↔ env.recover (o.GenerateHash env) o.V o.R o.S = .ok o.Owner) ∧
      (r.valid = false → ∃ e, r.err = some e) := by
  unfold SignFilter.filter Order.SignerAddress
  simp only
  cases hrec : env.recover (o.GenerateHash env) o.V o.R o.S with
  | error err =>
    refine ⟨_, rfl, rfl, ?_, fun _ => ⟨err, rfl⟩⟩
    simp
  | ok addr =>
    by_cases haddr : addr = o.Owner
    · subst haddr
      simp
    · simp only [ne_eq, haddr, not_false_eq_true, if_true]
      refine ⟨_, rfl, rfl, ?_, fun _ => ⟨_, rfl⟩⟩
      simp [haddr]

theorem SignFilter_filter_rejects (env : Env) (f : SignFilter) (o : Order)
    (hsig : env.recover (o.GenerateHash env) o.V o.R o.S ≠ .ok o.Owner) :
    ∃ e : String,
      f.filter env o = some ⟨f, { o with Hash := o.GenerateHash env }, false, some e⟩ := by
  obtain ⟨r, h1, h3, h4, h5⟩ := SignFilter_filter_total env f o
  obtain ⟨self, ord, valid, err⟩ := r
  simp only at h3 h4 h5
  have hv : valid = false := by
    cases valid with
    | false => rfl
    | true => exact absurd (h4.mp rfl) hsig
  obtain ⟨e, he⟩ := h5 hv
  subst h3 hv he
  exact ⟨e, h1⟩

end gateway

namespace gateway

open types

theorem BaseFilter_filter_frame (env : Env) (f : BaseFilter) (o : Order)
    (r : FilterRun BaseFilter) (h : f.filter env o = some r) : r.self = f ∧ r.ord = o := by
  unfold BaseFilter.filter at h
  split_ifs at h with h1
  · cases h
    exact ⟨rfl, rfl⟩
  · cases hfee : o.LrcFee with
    | none => simp [hfee] at h
    | some fee =>
      simp only [hfee] at h
      split_ifs at h <;> (cases h; exact ⟨rfl, rfl⟩)

theorem SignFilter_filter_frame (env : Env) (f : SignFilter) (o : Order)
    (r : FilterRun SignFilter) (h : f.filter env o = some r) :
    r.self = f ∧ r.ord = { o with Hash := o.GenerateHash env } := by
  obtain ⟨r2, h1, h2, _⟩ := SignFilter_filter_total env f o
  rw [h] at h1
  cases h1
  exact ⟨rfl, h2⟩

theorem TokenSFilter_filter_frame (env : Env) (f : TokenSFilter) (o : Order)
    (r : FilterRun TokenSFilter) (h : f.filter env o = some r) : r.self = f ∧ r.ord = o := by
  unfold TokenSFilter.filter at h
  split_ifs at h <;> (cases h; exact ⟨rfl, rfl⟩)

theorem TokenBFilter_filter_frame (env : Env) (f : TokenBFilter) (o : Order)
    (r : FilterRun TokenBFilter) (h : f.filter env o = some r) : r.self = f ∧ r.ord = o := by
  unfold TokenBFilter.filter at h
  split_ifs at h <;> (cases h; exact ⟨rfl, rfl⟩)

/-- Every call of a filter leaves the filter as it was, and the order as it was but for
its `Hash`, which the sign filter overwrites with the recomputed hash. -/
theorem Filter_filter_frame (env : Env) (v : Filter) (o : Order) (r : FilterRun Filter)
    (h : v.filter env o = some r) :
    r.self = v ∧
    (r.ord = o ∨ ((∃ f, v = Filter.sign f) ∧ r.ord = { o with Hash := o.GenerateHash env })) := by
  cases v with
  | base f =>
    simp only [Filter.filter, Option.map_eq_some'] at h
    obtain ⟨r1, h1, h2⟩ := h
    obtain ⟨ha, hb⟩ := BaseFilter_filter_frame env f o r1 h1
    subst h2
    exact ⟨by simp [FilterRun.lift, ha], Or.inl hb⟩
  | sign f =>
    simp only [Filter.filter, Option.map_eq_some'] at h
    obtain ⟨r1, h1, h2⟩ := h
    obtain ⟨ha, hb⟩ := SignFilter_filter_frame env f o r1 h1
    subst h2
    exact ⟨by simp [FilterRun.lift], Or.inr ⟨⟨f, rfl⟩, hb⟩⟩
  | tokenS f =>
    simp only [Filter.filter, Option.map_eq_some'] at h
    obtain ⟨r1, h1, h2⟩ := h
    obtain ⟨ha, hb⟩ := TokenSFilter_filter_frame env f o r1 h1
    subst h2
    exact ⟨by simp [FilterRun.lift, ha], Or.inl hb⟩
  | tokenB f =>
    simp only [Filter.filter, Option.map_eq_some'] at h
    obtain ⟨r1, h1, h2⟩ := h
    obtain ⟨ha, hb⟩ := TokenBFilter_filter_frame env f o r1 h1
    subst h2
    exact ⟨by simp [FilterRun.lift, ha], Or.inl hb⟩

theorem Filter_filter_frame_hashed (env : Env) (v : Filter) (o : Order) (r : FilterRun Filter)
    (hhash : o.Hash = o.GenerateHash env) (h : v.filter env o = some r) :
    r.self = v ∧ r.ord = o := by
  obtain ⟨h1, h2⟩ := Filter_filter_frame env v o r h
  refine ⟨h1, ?_⟩
  rcases h2 with h2 | ⟨_, h2⟩
  · exact h2
  · rw [h2, ← hhash]

theorem runFilters_frame (env : Env) (fs : List Filter) (o : Order) (l : LoopEnd)
    (hhash : o.Hash = o.GenerateHash env) (h : runFilters env fs o = some l) :
    l.filters = fs ∧ l.ord = o := by
  induction fs generalizing l with
  | nil =>
    simp only [runFilters, Option.some.injEq] at h
    subst h
    exact ⟨rfl, rfl⟩
  | cons v rest ih =>
    simp only [runFilters] at h
    cases hv : v.filter env o with
    | none => simp [hv] at h
    | some r =>
      obtain ⟨hself, hord⟩ := Filter_filter_frame_hashed env v o r hhash hv
      simp only [hv] at h
      cases hvalid : r.valid with
      | false =>
        simp only [hvalid, Bool.not_false, if_true] at h
        cases herr : r.err with
        | none => simp [herr] at h
        | some e =>
          simp only [herr, Option.some.injEq] at h
          subst h
          exact ⟨by simp [hself], hord⟩
      | true =>
        simp only [hvalid, Bool.not_true, Bool.false_eq_true, if_false] at h
        rw [hord] at h
        cases hrest : runFilters env rest o with
        | none => simp [hrest] at h
        | some l2 =>
          obtain ⟨h1, h2⟩ := ih l2 hrest
          simp only [hrest, Option.some.injEq] at h
          subst h
          exact ⟨by simp [hself, h1], h2⟩

theorem normalize_hashed (env : Env) (o : Order) :
    (normalize env o).Hash = (normalize env o).GenerateHash env := rfl

/-- What `HandleOrder` returns, read off the run of its loop. -/
theorem HandleOrder_cases (env : Env) (w : World) (o : Order) (h : Handled)
    (hh : HandleOrder env w o = some h) :
    h.ord = normalize env o ∧ h.world.filters = w.filters ∧
    ((h.err = none ∧ h.world.emitted = w.emitted ++
        [(eventemitter.Topic.OrderBookGateway, ⟨normalize env o, none, none⟩)]) ∨
     ((∃ e, h.err = some e) ∧ h.world.emitted = w.emitted)) := by
  rw [HandleOrder_unfold] at hh
  cases hrun : runFilters env w.filters (normalize env o) with
  | none => simp [hrun] at hh
  | some l =>
    obtain ⟨hfs, hord⟩ := runFilters_frame env _ _ l (normalize_hashed env o) hrun
    obtain ⟨fs, ord, rej⟩ := l
    simp only at hfs hord
    subst hfs hord
    simp only [hrun] at hh
    cases rej with
    | none =>
      simp only [Option.some.injEq] at hh
      subst hh
      exact ⟨rfl, rfl, Or.inl ⟨rfl, rfl⟩⟩
    | some e =>
      simp only [Option.some.injEq] at hh
      subst hh
      exact ⟨rfl, rfl, Or.inr ⟨⟨e, rfl⟩, rfl⟩⟩

end gateway

namespace gateway

open types

theorem sample_run_forged :
    runFilters sample.env (Initialize sample.env sample.options World.fresh).filters
        (normalize sample.env sample.forged)
      = some ⟨builtFilters sample.env sample.options, normalize sample.env sample.forged,
          some "o.Owner and signeraddress are not match."⟩ := rfl

end gateway

namespace gateway

open types

theorem allow_reason_ne_deny_reason_S (x y : String) :
    "tokenS filter allowTokens do not contain " ++ x
      ≠ "tokenS filter deniedTokens contain " ++ y := by
  intro h
  have h2 := congrArg (fun s => s.data[14]?) h
  simp only [String.data_append] at h2
  rw [List.getElem?_append_left (by decide), List.getElem?_append_left (by decide)] at h2
  revert h2
  decide

theorem allow_reason_ne_deny_reason_B (x y : String) :
    "tokenB filter allowTokens do not contain " ++ x
      ≠ "tokenB filter deniedTokens contain " ++ y := by
  intro h
  have h2 := congrArg (fun s => s.data[14]?) h
  simp only [String.data_append] at h2
  rw [List.getElem?_append_left (by decide), List.getElem?_append_left (by decide)] at h2
  revert h2
  decide

theorem TokenSFilter_filter_cases (env : Env) (f : TokenSFilter) (o : Order) :
    (f.AllowTokens.has o.TokenS = false →
      f.filter env o = some ⟨f, o, false,
        some ("tokenS filter allowTokens do not contain " ++ env.addressHex o.TokenS)⟩) ∧
    (f.AllowTokens.has o.TokenS = true → f.DeniedTokens.has o.TokenS = true →
      f.filter env o = some ⟨f, o, false,
        some ("tokenS filter deniedTokens contain " ++ env.addressHex o.TokenS)⟩) ∧
    (f.AllowTokens.has o.TokenS = true → f.DeniedTokens.has o.TokenS = false →
      f.filter env o = some ⟨f, o, true, none⟩) := by
  refine ⟨?_, ?_, ?_⟩
  · intro ha
    simp [TokenSFilter.filter, ha]
  · intro ha hd
    simp [TokenSFilter.filter, ha, hd]
  · intro ha hd
    simp [TokenSFilter.filter, ha, hd]

theorem TokenBFilter_filter_cases (env : Env) (f : TokenBFilter) (o : Order) :
    (f.AllowTokens.has o.TokenB = false →
      f.filter env o = some ⟨f, o, false,
        some ("tokenB filter allowTokens do not contain " ++ env.addressHex o.TokenB)⟩) ∧
    (f.AllowTokens.has o.TokenB = true → f.DeniedTokens.has o.TokenB = true →
      f.filter env o = some ⟨f, o, false,
        some ("tokenB filter deniedTokens contain " ++ env.addressHex o.TokenB)⟩) ∧
    (f.AllowTokens.has o.TokenB = true → f.DeniedTokens.has o.TokenB = false →
      f.filter env o = some ⟨f, o, true, none⟩) := by
  refine ⟨?_, ?_, ?_⟩
  · intro ha
    simp [TokenBFilter.filter, ha]
  · intro ha hd
    simp [TokenBFilter.filter, ha, hd]
  · intro ha hd
    simp [TokenBFilter.filter, ha, hd]

end gateway

namespace gateway

open types

theorem Filter_filter_returns (env : Env) (v : Filter) (o : Order) (hfee : o.LrcFee ≠ none) :
    ∃ r : FilterRun Filter, v.filter env o = some r := by
  obtain ⟨fee, hfee⟩ := Option.ne_none_iff_exists'.mp hfee
  cases v with
  | base f =>
    by_cases hpair : o.TokenS = o.TokenB
    · exact ⟨_, by simp only [Filter.filter, BaseFilter_filter_self_pair env f o hpair]; rfl⟩
    · by_cases hmin : fee ≤ f.MinLrcFee
      · exact ⟨_, by
          simp only [Filter.filter, BaseFilter_filter_tiny_fee env f o fee hpair hfee hmin]
          rfl⟩
      · exact ⟨_, by
          simp only [Filter.filter,
            BaseFilter_filter_admits env f o fee hpair hfee (not_le.mp hmin)]
          rfl⟩
  | sign f =>
    obtain ⟨r, hr, _⟩ := SignFilter_filter_total env f o
    exact ⟨_, by simp only [Filter.filter, hr]; rfl⟩
  | tokenS f =>
    obtain ⟨s1, s2, s3⟩ := TokenSFilter_filter_cases env f o
    cases ha : f.AllowTokens.has o.TokenS with
    | false => exact ⟨_, by simp only [Filter.filter, s1 ha]; rfl⟩
    | true =>
      cases hd : f.DeniedTokens.has o.TokenS with
      | false => exact ⟨_, by simp only [Filter.filter, s3 ha hd]; rfl⟩
      | true => exact ⟨_, by simp only [Filter.filter, s2 ha hd]; rfl⟩
  | tokenB f =>
    obtain ⟨s1, s2, s3⟩ := TokenBFilter_filter_cases env f o
    cases ha : f.AllowTokens.has o.TokenB with
    | false => exact ⟨_, by simp only [Filter.filter, s1 ha]; rfl⟩
    | true =>
      cases hd : f.DeniedTokens.has o.TokenB with
      | false => exact ⟨_, by simp only [Filter.filter, s3 ha hd]; rfl⟩
      | true => exact ⟨_, by simp only [Filter.filter, s2 ha hd]; rfl⟩

theorem BaseFilter_filter_reject_error (env : Env) (f : BaseFilter) (o : Order)
    (r : FilterRun BaseFilter) (h : f.filter env o = some r) (hv : r.valid = false) :
    ∃ e, r.err = some e := by
  unfold BaseFilter.filter at h
  split_ifs at h with h1
  · cases h
    exact ⟨_, rfl⟩
  · cases hfee : o.LrcFee with
    | none => simp [hfee] at h
    | some fee =>
      simp only [hfee] at h
      split_ifs at h
      · cases h
        exact ⟨_, rfl⟩
      · cases h
        cases hv

theorem TokenSFilter_filter_reject_error (env : Env) (f : TokenSFilter) (o : Order)
    (r : FilterRun TokenSFilter) (h : f.filter env o = some r) (hv : r.valid = false) :
    ∃ e, r.err = some e := by
  unfold TokenSFilter.filter at h
  split_ifs at h
  · cases h
    exact ⟨_, rfl⟩
  · cases h
    exact ⟨_, rfl⟩
  · cases h
    cases hv

theorem TokenBFilter_filter_reject_error (env : Env) (f : TokenBFilter) (o : Order)
    (r : FilterRun TokenBFilter) (h : f.filter env o = some r) (hv : r.valid = false) :
    ∃ e, r.err = some e := by
  unfold TokenBFilter.filter at h
  split_ifs at h
  · cases h
    exact ⟨_, rfl⟩
  · cases h
    exact ⟨_, rfl⟩
  · cases h
    cases hv

theorem SignFilter_filter_reject_error (env : Env) (f : SignFilter) (o : Order)
    (r : FilterRun SignFilter) (h : f.filter env o = some r) (hv : r.valid = false) :
    ∃ e, r.err = some e := by
  obtain ⟨r2, h1, _, _, h5⟩ := SignFilter_filter_total env f o
  rw [h] at h1
  cases h1
  exact h5 hv

theorem Filter_filter_reject_error (env : Env) (v : Filter) (o : Order) (r : FilterRun Filter)
    (h : v.filter env o = some r) (hv : r.valid = false) : ∃ e, r.err = some e := by
  cases v with
  | base f =>
    simp only [Filter.filter, Option.map_eq_some'] at h
    obtain ⟨r1, h1, h2⟩ := h
    subst h2
    exact BaseFilter_filter_reject_error env f o r1 h1 hv
  | sign f =>
    simp only [Filter.filter, Option.map_eq_some'] at h
    obtain ⟨r1, h1, h2⟩ := h
    subst h2
    exact SignFilter_filter_reject_error env f o r1 h1 hv
  | tokenS f =>
    simp only [Filter.filter, Option.map_eq_some'] at h
    obtain ⟨r1, h1, h2⟩ := h
    subst h2
    exact TokenSFilter_filter_reject_error env f o r1 h1 hv
  | tokenB f =>
    simp only [Filter.filter, Option.map_eq_some'] at h
    obtain ⟨r1, h1, h2⟩ := h
    subst h2
    exact TokenBFilter_filter_reject_error env f o r1 h1 hv

theorem runFilters_returns (env : Env) (fs : List Filter) (o : Order)
    (hhash : o.Hash = o.GenerateHash env) (hfee : o.LrcFee ≠ none) :
    ∃ l : LoopEnd, runFilters env fs o = some l ∧
      (l.rejected ≠ none ↔
        ∃ v ∈ fs, ∃ r : FilterRun Filter, v.filter env o = some r ∧ r.valid = false) := by
  induction fs with
  | nil =>
    refine ⟨_, rfl, ?_⟩
    simp
  | cons v rest ih =>
    obtain ⟨r, hr⟩ := Filter_filter_returns env v o hfee
    obtain ⟨_, hord⟩ := Filter_filter_frame_hashed env v o r hhash hr
    cases hvalid : r.valid with
    | false =>
      obtain ⟨e, he⟩ := Filter_filter_reject_error env v o r hr hvalid
      refine ⟨_, runFilters_rejecting_head env v rest o r e hr hvalid he, ?_⟩
      constructor
      · intro _
        exact ⟨v, List.mem_cons_self _ _, r, hr, hvalid⟩
      · intro _
        exact Option.some_ne_none e
    | true =>
      obtain ⟨l, hl, hiff⟩ := ih
      refine ⟨⟨r.self :: l.filters, l.ord, l.rejected⟩, ?_, ?_⟩
      · simp only [runFilters, hr, hvalid, Bool.not_true, Bool.false_eq_true, if_false, hord,
          hl]
      · simp only
        rw [hiff]
        constructor
        · rintro ⟨v2, hmem, r2, hr2, hv2⟩
          exact ⟨v2, List.mem_cons_of_mem _ hmem, r2, hr2, hv2⟩
        · rintro ⟨v2, hmem, r2, hr2, hv2⟩
          rcases List.mem_cons.mp hmem with heq | hmem2
          · subst heq
            rw [hr] at hr2
            cases hr2
            rw [hvalid] at hv2
            cases hv2
          · exact ⟨v2, hmem2, r2, hr2, hv2⟩

end gateway

namespace gateway

open types

theorem runFilters_twice (env : Env) (fs : List Filter) (o : Order)
    (hhash : o.Hash = o.GenerateHash env) :
    (runFilters env (fs ++ fs) o).map (fun l => (l.ord, l.rejected))
      = (runFilters env fs o).map (fun l => (l.ord, l.rejected)) := by
  rw [runFilters_append]
  cases hrun : runFilters env fs o with
  | none => rfl
  | some l =>
    obtain ⟨_, hord⟩ := runFilters_frame env fs o l hhash hrun
    obtain ⟨fs2, ord, rej⟩ := l
    simp only at hord
    subst hord
    cases rej with
    | some e => rfl
    | none =>
      simp only [hrun]
      rfl

theorem HandleOrder_outcome_congr (env : Env) (w1 w2 : World) (o : Order)
    (hem : w1.emitted = w2.emitted)
    (hrun : (runFilters env w1.filters (normalize env o)).map (fun l => (l.ord, l.rejected))
      = (runFilters env w2.filters (normalize env o)).map (fun l => (l.ord, l.rejected))) :
    (HandleOrder env w1 o).map (fun h => (h.err, h.ord, h.world.emitted))
      = (HandleOrder env w2 o).map (fun h => (h.err, h.ord, h.world.emitted)) := by
  rw [HandleOrder_unfold, HandleOrder_unfold]
  cases h1 : runFilters env w1.filters (normalize env o) with
  | none =>
    cases h2 : runFilters env w2.filters (normalize env o) with
    | none => rfl
    | some l2 => simp [h1, h2] at hrun
  | some l1 =>
    cases h2 : runFilters env w2.filters (normalize env o) with
    | none => simp [h1, h2] at hrun
    | some l2 =>
      simp only [h1, h2, Option.map_some', Option.some.injEq, Prod.mk.injEq] at hrun
      obtain ⟨hord, hrej⟩ := hrun
      obtain ⟨f1, o1, r1⟩ := l1
      obtain ⟨f2, o2, r2⟩ := l2
      simp only at hord hrej
      subst hord hrej
      cases r1 with
      | none => simp [hem]
      | some e => simp [hem]

end gateway

/-! ## Shared lemmas on the chain accessor -/

namespace ethaccessor

theorem ceil_step (len size : Nat) (hlen : 1 ≤ len) (hsize : 1 ≤ size) :
    (len + size - 1) / size = (len - size + size - 1) / size + 1 := by
  by_cases h : size ≤ len
  · have e : len + size - 1 = (len - size + size - 1) + size := by omega
    rw [e, Nat.add_div_right _ (by omega)]
  · have e1 : len - size + size - 1 = size - 1 := by omega
    have e2 : len + size - 1 = (len - 1) + size := by omega
    rw [e1, e2, Nat.add_div_right _ (by omega), Nat.div_eq_of_lt (by omega),
      Nat.div_eq_of_lt (by omega)]

theorem chunksFuel_spec {α : Type} (size : Nat) (hsize : 1 ≤ size) (fuel : Nat) (xs : List α)
    (hfuel : xs.length ≤ fuel) :
    (chunksFuel size fuel xs).flatten = xs ∧
    (chunksFuel size fuel xs).length = (xs.length + size - 1) / size ∧
    (∀ c ∈ chunksFuel size fuel xs, 1 ≤ c.length ∧ c.length ≤ size) := by
  induction fuel generalizing xs with
  | zero =>
    have hx : xs = [] := List.length_eq_zero.mp (by omega)
    subst hx
    refine ⟨rfl, ?_, ?_⟩
    · simp only [chunksFuel, List.length_nil, Nat.zero_add]
      exact (Nat.div_eq_of_lt (by omega)).symm
    · intro c hc
      simp [chunksFuel] at hc
  | succ fuel ih =>
    cases xs with
    | nil =>
      refine ⟨rfl, ?_, ?_⟩
      · simp only [chunksFuel, List.length_nil, Nat.zero_add]
        exact (Nat.div_eq_of_lt (by omega)).symm
      · intro c hc
        simp [chunksFuel] at hc
    | cons x rest =>
      have hdrop : ((x :: rest).drop size).length ≤ fuel := by
        rw [List.length_drop]
        simp only [List.length_cons] at hfuel ⊢
        omega
      obtain ⟨h1, h2, h3⟩ := ih ((x :: rest).drop size) hdrop
      refine ⟨?_, ?_, ?_⟩
      · simp only [chunksFuel, List.flatten_cons, h1]
        exact List.take_append_drop size (x :: rest)
      · simp only [chunksFuel, List.length_cons, h2, List.length_drop]
        exact (ceil_step (rest.length + 1) size (by omega) hsize).symm
      · intro c hc
        simp only [chunksFuel, List.mem_cons] at hc
        rcases hc with hc | hc
        · subst hc
          rw [List.length_take]
          simp only [List.length_cons]
          omega
        · exact h3 c hc

theorem chunks_spec {α : Type} (batchSize : Nat) (hbs : 1 ≤ batchSize) (xs : List α) :
    (chunks batchSize xs).flatten = xs ∧
    (chunks batchSize xs).length = (xs.length + batchSize - 1) / batchSize ∧
    (∀ c ∈ chunks batchSize xs, 1 ≤ c.length ∧ c.length ≤ batchSize) := by
  have hmax : max batchSize 1 = batchSize := by omega
  unfold chunks
  rw [hmax]
  exact chunksFuel_spec batchSize hbs xs.length xs (Nat.le_refl _)

theorem ceil_bounds (len size : Nat) (hsize : 1 ≤ size) :
    len ≤ (len + size - 1) / size * size ∧ (len + size - 1) / size * size < len + size := by
  have h1 := Nat.div_add_mod (len + size - 1) size
  have h2 := Nat.mod_lt (len + size - 1) (show size > 0 by omega)
  have h3 : size * ((len + size - 1) / size) = (len + size - 1) / size * size :=
    Nat.mul_comm _ _
  constructor <;> omega

theorem sendChunks_ok {ρ : Type} (fault : Nat → Option String) (fill : ρ → ρ) (trips : Nat)
    (cs : List (List ρ)) (h : (sendChunks fault fill trips cs).err = none) :
    (sendChunks fault fill trips cs).reqs = cs.flatten.map fill ∧
    (sendChunks fault fill trips cs).trips = trips + cs.length := by
  induction cs generalizing trips with
  | nil => exact ⟨rfl, rfl⟩
  | cons c cs ih =>
    cases hf : fault trips with
    | some e => simp [sendChunks, hf] at h
    | none =>
      simp only [sendChunks, hf] at h ⊢
      obtain ⟨h1, h2⟩ := ih (trips + 1) h
      refine ⟨?_, ?_⟩
      · rw [h1, List.flatten_cons, List.map_append]
      · rw [h2, List.length_cons]
        omega

end ethaccessor

namespace ethaccessor

theorem fillTransaction_spec (a : EthNodeAccessor) (q : BatchTransactionReq) :
    (fillTransaction a q).TxHash = q.TxHash ∧
    ((∃ e, a.transaction q.TxHash = .error e) → (fillTransaction a q).Err ≠ none) ∧
    ((¬ ∃ e, a.transaction q.TxHash = .error e) →
      (fillTransaction a q).Err = none ∧
      a.transaction q.TxHash = .ok (fillTransaction a q).TxContent) := by
  unfold fillTransaction
  cases h : a.transaction q.TxHash with
  | error e => exact ⟨rfl, fun _ => Option.some_ne_none e, fun hn => absurd ⟨e, rfl⟩ hn⟩
  | ok tx => exact ⟨rfl, fun hex => (by obtain ⟨e, he⟩ := hex; cases he), fun _ => ⟨rfl, rfl⟩⟩

theorem fillRecipient_spec (a : EthNodeAccessor) (q : BatchTransactionRecipientReq) :
    (fillRecipient a q).TxHash = q.TxHash ∧
    ((∃ e, a.receipt q.TxHash = .error e) → (fillRecipient a q).Err ≠ none) ∧
    ((¬ ∃ e, a.receipt q.TxHash = .error e) →
      (fillRecipient a q).Err = none ∧
      a.receipt q.TxHash = .ok (fillRecipient a q).TxContent) := by
  unfold fillRecipient
  cases h : a.receipt q.TxHash with
  | error e => exact ⟨rfl, fun _ => Option.some_ne_none e, fun hn => absurd ⟨e, rfl⟩ hn⟩
  | ok rc => exact ⟨rfl, fun hex => (by obtain ⟨e, he⟩ := hex; cases he), fun _ => ⟨rfl, rfl⟩⟩

theorem batch_ok {ρ : Type} (fault : Nat → Option String) (fill : ρ → ρ) (trips batchSize : Nat)
    (hbs : 1 ≤ batchSize) (reqs : List ρ)
    (h : (sendChunks fault fill trips (chunks batchSize reqs)).err = none) :
    (sendChunks fault fill trips (chunks batchSize reqs)).trips
      = trips + (reqs.length + batchSize - 1) / batchSize ∧
    (sendChunks fault fill trips (chunks batchSize reqs)).reqs = reqs.map fill := by
  obtain ⟨h1, h2⟩ := sendChunks_ok fault fill trips _ h
  obtain ⟨c1, c2, _⟩ := chunks_spec batchSize hbs reqs
  rw [h1, h2, c1, c2]
  exact ⟨rfl, rfl⟩

end ethaccessor

namespace ethaccessor

theorem sample_only_third_unknown (j : Nat) (q : BatchTransactionReq)
    (hq : sample.requests[j]? = some q) :
    (∃ e, sample.accessor.transaction q.TxHash = .error e) ↔ j = 2 := by
  rcases j with _ | _ | _ | _ | _ | j
  · simp only [sample.requests, List.getElem?_cons_zero, Option.some.injEq] at hq
    subst hq
    simp [sample.accessor]
  · simp only [sample.requests, List.getElem?_cons_succ, List.getElem?_cons_zero,
      Option.some.injEq] at hq
    subst hq
    simp [sample.accessor]
  · simp only [sample.requests, List.getElem?_cons_succ, List.getElem?_cons_zero,
      Option.some.injEq] at hq
    subst hq
    simp [sample.accessor]
  · simp only [sample.requests, List.getElem?_cons_succ, List.getElem?_cons_zero,
      Option.some.injEq] at hq
    subst hq
    simp [sample.accessor]
  · simp only [sample.requests, List.getElem?_cons_succ, List.getElem?_cons_zero,
      Option.some.injEq] at hq
    subst hq
    simp [sample.accessor]
  · simp [sample.requests] at hq

end ethaccessor

namespace ethaccessor

theorem Next_at_end (a : EthNodeAccessor) (it : BlockIterator) (trips stop : Nat) (full : Bool)
    (h : it.standsAt a stop stop full) :
    it.Next a trips = ⟨.finished, it, trips⟩ := by
  obtain ⟨h1, _, h3, h4, h5⟩ := h
  have hcur : it.currentNumber = stop := Nat.le_antisymm h4 h3
  have hbuf : it.prefetched = [] := by
    rw [h5, hcur, Nat.sub_self]
    rfl
  unfold BlockIterator.Next
  rw [hbuf]
  simp [h1, hcur]

theorem Next_before_end (a : EthNodeAccessor) (hfault : ∀ n, a.fault n = none)
    (it : BlockIterator) (trips p stop : Nat) (full : Bool)
    (h : it.standsAt a p stop full) (hp : p < stop) :
    (it.Next a trips).result = .block (a.blockAt full p) ∧
    (it.Next a trips).iterator.standsAt a (p + 1) stop full := by
  obtain ⟨h1, h2, h3, h4, h5⟩ := h
  by_cases hbuf : p < it.currentNumber
  · -- a block fetched ahead is handed out
    obtain ⟨m, hm⟩ : ∃ m, it.currentNumber - p = m + 1 := ⟨it.currentNumber - p - 1, by omega⟩
    rw [hm, List.range'_succ, List.map_cons] at h5
    unfold BlockIterator.Next
    rw [h5]
    refine ⟨rfl, h1, h2, ?_, h4, ?_⟩
    · show p + 1 ≤ it.currentNumber
      omega
    · show List.map (a.blockAt full) (List.range' (p + 1) m)
        = List.map (a.blockAt full) (List.range' (p + 1) (it.currentNumber - (p + 1)))
      have e : it.currentNumber - (p + 1) = m := by omega
      rw [e]
  · -- nothing is left: a group is fetched
    have hcur : it.currentNumber = p := by omega
    have hnil : it.prefetched = [] := by
      rw [h5, hcur, Nat.sub_self]
      rfl
    have hlt : ¬ it.endNumber ≤ it.currentNumber := by omega
    obtain ⟨m, hm⟩ : ∃ m, min (max it.batchSize 1) (it.endNumber - it.currentNumber) = m + 1 :=
      ⟨min (max it.batchSize 1) (it.endNumber - it.currentNumber) - 1, by omega⟩
    unfold BlockIterator.Next
    rw [hnil]
    simp only [hlt, if_false, hfault trips, hm, List.range'_succ, List.map_cons]
    refine ⟨by rw [h2, hcur], h1, h2, ?_, ?_, ?_⟩
    · show p + 1 ≤ it.currentNumber + (m + 1)
      omega
    · show it.currentNumber + (m + 1) ≤ stop
      omega
    · show List.map (a.blockAt it.withTxData) (List.range' (it.currentNumber + 1) m)
        = List.map (a.blockAt full)
            (List.range' (p + 1) (it.currentNumber + (m + 1) - (p + 1)))
      have e : it.currentNumber + (m + 1) - (p + 1) = m := by omega
      rw [e, h2, hcur]

theorem nexts_at_end (a : EthNodeAccessor) (it : BlockIterator) (trips stop : Nat) (full : Bool)
    (h : it.standsAt a stop stop full) (j : Nat) :
    nexts a j it trips = List.replicate j NextResult.finished := by
  induction j with
  | zero => rfl
  | succ j ih =>
    simp only [nexts, Next_at_end a it trips stop full h, ih, List.replicate_succ]

theorem nexts_from (a : EthNodeAccessor) (hfault : ∀ n, a.fault n = none) (m : Nat)
    (it : BlockIterator) (trips p stop : Nat) (full : Bool)
    (h : it.standsAt a p stop full) (hm : p + m = stop) (j : Nat) :
    nexts a (m + j) it trips
      = (List.range' p m).map (fun n => NextResult.block (a.blockAt full n))
          ++ List.replicate j NextResult.finished := by
  induction m generalizing it trips p with
  | zero =>
    have hp : p = stop := by omega
    subst hp
    simp only [Nat.zero_add, List.range'_zero, List.map_nil, List.nil_append]
    exact nexts_at_end a it trips p full h j
  | succ m ih =>
    obtain ⟨h1, h2⟩ := Next_before_end a hfault it trips p stop full h (by omega)
    have e : m + 1 + j = (m + j) + 1 := by omega
    rw [e]
    simp only [nexts, h1, List.range'_succ, List.map_cons, List.cons_append]
    rw [ih _ _ (p + 1) h2 (by omega)]

theorem BlockIterator_standsAt_start (a : EthNodeAccessor) (startBlock endBlock : Nat)
    (full : Bool) (batchSize : Nat) (h : startBlock ≤ endBlock) :
    (a.BlockIterator startBlock endBlock full batchSize).standsAt a startBlock endBlock full := by
  refine ⟨rfl, rfl, Nat.le_refl _, h, ?_⟩
  show [] = List.map (a.blockAt full) (List.range' startBlock (startBlock - startBlock))
  rw [Nat.sub_self]
  rfl

end ethaccessor

/-! ## C1: the happy path -/

namespace gateway

open types

/-- C1, as stated, fails: the sample order meets every premise (distinct tokens, fee 2 over
the minimum 1, signed by its owner, both tokens allowed and not denied) and exactly one
state is published, but its `RawOrder` is not the input with only `Hash` set: the input
carries no price and the published order carries the derived price 2. -/
theorem C1_counterexample_price_is_assigned :
    ∃ h : Handled,
      HandleOrder sample.env (Initialize sample.env sample.options World.fresh) sample.order
        = some h ∧
      h.err = none ∧
      ∃ st : OrderState,
        h.world.emitted = [(eventemitter.Topic.OrderBookGateway, st)] ∧
        st.RawOrder.Hash = sample.order.GenerateHash sample.env ∧
        sample.order.Price = none ∧
        st.RawOrder.Price = some 2 ∧
        st.RawOrder ≠ { sample.order with Hash := sample.order.GenerateHash sample.env } := by
  obtain ⟨h, h1, h2, _, _, h5⟩ := HandleOrder_of_run sample.env _ sample.order _ sample_run rfl
  refine ⟨h, h1, h2, ⟨normalize sample.env sample.order, none, none⟩, h5, rfl, rfl, ?_, ?_⟩
  · show sample.env.ratio (some 100) (some 50) = some 2
    simp only [sample.env]
    norm_num
  · intro hEq
    have hP := congrArg Order.Price hEq
    revert hP
    show sample.env.ratio (some 100) (some 50) = none → False
    simp [sample.env]

/-- C1 (amended): for every order with tokenS ≠ tokenB, a fee strictly above the configured
minimum, a signature whose recovered signer is the owner, and both tokens in the allow list
and outside the deny list of their side, `HandleOrder` on the filters that `Initialize`
builds from an empty list returns nil and appends exactly one event to the published ones:
an `OrderState` on the accepted-order topic whose `RawOrder` has `Hash` set to the
generated hash, `Price` set to the derived price, and every other field as in the input. -/
theorem C1_happy_path (env : Env) (options : config.GatewayFiltersOptions) (w : World)
    (o : Order) (fee : Int)
    (hw : w.filters = [])
    (hpair : o.TokenS ≠ o.TokenB)
    (hfee : o.LrcFee = some fee)
    (hmin : options.BaseFilter.MinLrcFee < fee)
    (hsig : env.recover (o.GenerateHash env) o.V o.R o.S = .ok o.Owner)
    (hSa : o.TokenS ∈ options.TokenSFilter.Allow.map env.HexToAddress)
    (hSd : o.TokenS ∉ options.TokenSFilter.Denied.map env.HexToAddress)
    (hBa : o.TokenB ∈ options.TokenBFilter.Allow.map env.HexToAddress)
    (hBd : o.TokenB ∉ options.TokenBFilter.Denied.map env.HexToAddress) :
    ∃ h : Handled,
      HandleOrder env (Initialize env options w) o = some h ∧
      h.err = none ∧
      h.world.emitted = w.emitted ++
        [(eventemitter.Topic.OrderBookGateway, ⟨normalize env o, none, none⟩)] ∧
      (normalize env o).Hash = o.GenerateHash env ∧
      (normalize env o).Price = env.ratio o.AmountS o.AmountB ∧
      (normalize env o).content = o.content := by
  have hrun : runFilters env (Initialize env options w).filters (normalize env o)
      = some ⟨builtFilters env options, normalize env o, none⟩ := by
    rw [Initialize_filters, hw, List.nil_append]
    exact runFilters_built_admits env options o fee hpair hfee hmin hsig hSa hSd hBa hBd
  obtain ⟨h, h1, h2, _, _, h5⟩ := HandleOrder_of_run env _ o _ hrun rfl
  exact ⟨h, h1, h2, h5, rfl, rfl, rfl⟩

/-- C1 (amended), at the sample order under the sample configuration. -/
theorem C1_happy_path_witness :
    ∃ h : Handled,
      HandleOrder sample.env (Initialize sample.env sample.options World.fresh) sample.order
        = some h ∧
      h.err = none ∧
      h.world.emitted = World.fresh.emitted ++
        [(eventemitter.Topic.OrderBookGateway, ⟨normalize sample.env sample.order, none, none⟩)] ∧
      (normalize sample.env sample.order).Hash = sample.order.GenerateHash sample.env ∧
      (normalize sample.env sample.order).Price
        = sample.env.ratio sample.order.AmountS sample.order.AmountB ∧
      (normalize sample.env sample.order).content = sample.order.content :=
  C1_happy_path sample.env sample.options World.fresh sample.order 2
    rfl (by decide) rfl (by decide) rfl (by decide) (by decide) (by decide) (by decide)

end gateway

/-! ## C2: the first rejection decides -/

namespace gateway

open types

/-- C2: `HandleOrder` applies the filters in list order and returns exactly the error of the
first filter that rejects, without running any later filter. First part: whenever the
filter list is `pre ++ v :: post`, every filter of `pre` admits the normalized order (the
loop over `pre` ends without rejection, leaving the order `l.ord`) and `v` rejects `l.ord`
with error `e`, then `HandleOrder` returns `e`, the order is as `v` left it, the filters of
`post` are untouched and nothing is published, whatever `post` holds. Second part: the list
that `Initialize` builds from an empty one is Base, Sign, TokenS, TokenB, and an order that
violates Base (a self pair, or a fee not above the minimum) is rejected with the error of
Base whatever the later filters would say. -/
theorem C2_first_rejection_decides (env : Env) :
    (∀ (w : World) (o : Order) (pre post : List Filter) (v : Filter) (l : LoopEnd)
        (r : FilterRun Filter) (e : String),
        w.filters = pre ++ v :: post →
        runFilters env pre (normalize env o) = some l → l.rejected = none →
        v.filter env l.ord = some r → r.valid = false → r.err = some e →
        ∃ h : Handled,
          HandleOrder env w o = some h ∧ h.err = some e ∧ h.ord = r.ord ∧
          h.world.filters = l.filters ++ r.self :: post ∧
          h.world.emitted = w.emitted) ∧
    (∀ (options : config.GatewayFiltersOptions) (w : World) (o : Order),
        w.filters = [] →
        (Initialize env options w).filters =
          [Filter.base ⟨options.BaseFilter.MinLrcFee⟩,
           Filter.sign ⟨⟩,
           Filter.tokenS ⟨fillTokens env options.TokenSFilter.Allow [],
                          fillTokens env options.TokenSFilter.Denied []⟩,
           Filter.tokenB ⟨fillTokens env options.TokenBFilter.Allow [],
                          fillTokens env options.TokenBFilter.Denied []⟩] ∧
        (o.TokenS = o.TokenB →
          ∃ h : Handled,
            HandleOrder env (Initialize env options w) o = some h ∧
            h.err = some ("order " ++ env.hashHex (o.GenerateHash env) ++ " tokenB == tokenS")) ∧
        (∀ fee : Int, o.TokenS ≠ o.TokenB → o.LrcFee = some fee →
          fee ≤ options.BaseFilter.MinLrcFee →
          ∃ h : Handled,
            HandleOrder env (Initialize env options w) o = some h ∧
            h.err = some ("order " ++ env.hashHex (o.GenerateHash env) ++ " lrcFee too tiny"))) := by
  constructor
  · intro w o pre post v l r e hw hpre hrej hv hvalid herr
    have hrun : runFilters env w.filters (normalize env o)
        = some ⟨l.filters ++ r.self :: post, r.ord, some e⟩ := by
      rw [hw, runFilters_append, hpre]
      obtain ⟨fs, ord, rej⟩ := l
      simp only at hrej hv
      subst hrej
      simp only
      rw [runFilters_rejecting_head env v post ord r e hv hvalid herr]
    obtain ⟨h, h1, h2, h3, h4, h5⟩ := HandleOrder_of_rejecting_run env w o _ e hrun rfl
    exact ⟨h, h1, h2, h3, h4, h5⟩
  · intro options w o hw
    have hfs : (Initialize env options w).filters = builtFilters env options := by
      rw [Initialize_filters, hw, List.nil_append]
    refine ⟨hfs, ?_, ?_⟩
    · intro hpair
      have hb := BaseFilter_filter_self_pair env ⟨options.BaseFilter.MinLrcFee⟩
        (normalize env o) hpair
      have hrun : runFilters env (Initialize env options w).filters (normalize env o)
          = some ⟨builtFilters env options, normalize env o,
              some ("order " ++ env.hashHex (o.GenerateHash env) ++ " tokenB == tokenS")⟩ := by
        rw [hfs]
        exact runFilters_rejecting_head env (Filter.base ⟨options.BaseFilter.MinLrcFee⟩)
          (builtFilters env options).tail (normalize env o) _ _
          (by simp only [Filter.filter, hb]; rfl) rfl rfl
      obtain ⟨h, h1, h2, _⟩ := HandleOrder_of_rejecting_run env _ o _ _ hrun rfl
      exact ⟨h, h1, h2⟩
    · intro fee hpair hfee hmin
      have hb := BaseFilter_filter_tiny_fee env ⟨options.BaseFilter.MinLrcFee⟩
        (normalize env o) fee hpair hfee hmin
      have hrun : runFilters env (Initialize env options w).filters (normalize env o)
          = some ⟨builtFilters env options, normalize env o,
              some ("order " ++ env.hashHex (o.GenerateHash env) ++ " lrcFee too tiny")⟩ := by
        rw [hfs]
        exact runFilters_rejecting_head env (Filter.base ⟨options.BaseFilter.MinLrcFee⟩)
          (builtFilters env options).tail (normalize env o) _ _
          (by simp only [Filter.filter, hb]; rfl) rfl rfl
      obtain ⟨h, h1, h2, _⟩ := HandleOrder_of_rejecting_run env _ o _ _ hrun rfl
      exact ⟨h, h1, h2⟩

/-- C2 at sample inputs: the forged order passes Base and is rejected by Sign, the second
filter, with the error of Sign; the forged self pair is rejected with the error of Base. -/
theorem C2_first_rejection_decides_witness :
    (∃ h : Handled,
      HandleOrder sample.env (Initialize sample.env sample.options World.fresh) sample.forged
        = some h ∧
      h.err = some "o.Owner and signeraddress are not match." ∧
      h.ord = normalize sample.env sample.forged ∧
      h.world.filters = builtFilters sample.env sample.options ∧
      h.world.emitted = []) ∧
    (∃ h : Handled,
      HandleOrder sample.env (Initialize sample.env sample.options World.fresh) sample.selfPair
        = some h ∧
      h.err = some ("order " ++ sample.env.hashHex (sample.selfPair.GenerateHash sample.env)
        ++ " tokenB == tokenS")) :=
  ⟨(C2_first_rejection_decides sample.env).1
      (Initialize sample.env sample.options World.fresh) sample.forged
      [Filter.base ⟨1⟩] (builtFilters sample.env sample.options).tail.tail (Filter.sign ⟨⟩)
      ⟨[Filter.base ⟨1⟩], normalize sample.env sample.forged, none⟩
      ⟨Filter.sign ⟨⟩, normalize sample.env sample.forged, false,
        some "o.Owner and signeraddress are not match."⟩
      "o.Owner and signeraddress are not match."
      rfl rfl rfl rfl rfl rfl,
   ((C2_first_rejection_decides sample.env).2 sample.options World.fresh sample.selfPair
      rfl).2.1 (by decide)⟩

end gateway

/-! ## C3: signature integrity -/

namespace gateway

open types

/-- C3, as stated, fails: the order `sample.forgedNoFee` is signed by address 6 while its
owner is 5, yet `HandleOrder` does not return an error for it: its `LrcFee` is nil and the
comparison in `BaseFilter.filter`, which runs before Sign, panics. -/
theorem C3_counterexample_nil_fee_panics :
    sample.env.recover (sample.forgedNoFee.GenerateHash sample.env)
        sample.forgedNoFee.V sample.forgedNoFee.R sample.forgedNoFee.S = .ok 6 ∧
    sample.forgedNoFee.Owner = 5 ∧
    HandleOrder sample.env (Initialize sample.env sample.options World.fresh)
      sample.forgedNoFee = none := by
  refine ⟨rfl, rfl, rfl⟩

/-- C3 (amended): `SignFilter.filter` always returns, and admits exactly when signer
recovery on the recomputed hash succeeds with the owner of the order. Hence for every
order whose recovered signer is not its owner and on which Base does not panic (its
`LrcFee` is not nil, or it is a self pair), `HandleOrder` on the filters built by
`Initialize` returns an error and publishes nothing, whatever Base, TokenS and TokenB say
of the order; and for every such order, with or without a fee, `HandleOrder` never returns
nil. -/
theorem C3_bad_signature_rejected (env : Env) (options : config.GatewayFiltersOptions)
    (w : World) (o : Order)
    (hw : w.filters = [])
    (hsig : env.recover (o.GenerateHash env) o.V o.R o.S ≠ .ok o.Owner) :
    (∀ (f : SignFilter) (x : Order), ∃ r : FilterRun SignFilter,
        f.filter env x = some r ∧
        (r.valid = true ↔ env.recover (x.GenerateHash env) x.V x.R x.S = .ok x.Owner)) ∧
    (o.LrcFee ≠ none ∨ o.TokenS = o.TokenB →
      ∃ (h : Handled) (e : String),
        HandleOrder env (Initialize env options w) o = some h ∧
        h.err = some e ∧ h.world.emitted = w.emitted) ∧
    (∀ h : Handled, HandleOrder env (Initialize env options w) o = some h →
      h.err ≠ none ∧ h.world.emitted = w.emitted) := by
  have hfs : (Initialize env options w).filters = builtFilters env options := by
    rw [Initialize_filters, hw, List.nil_append]
  -- the run of the loop whenever Base returns
  have key : o.LrcFee ≠ none ∨ o.TokenS = o.TokenB →
      ∃ (l : LoopEnd) (e : String),
        runFilters env (Initialize env options w).filters (normalize env o) = some l ∧
        l.rejected = some e := by
    intro hbase
    rw [hfs]
    by_cases hpair : o.TokenS = o.TokenB
    · have hb := BaseFilter_filter_self_pair env ⟨options.BaseFilter.MinLrcFee⟩
        (normalize env o) hpair
      exact ⟨_, _, runFilters_rejecting_head env (Filter.base ⟨options.BaseFilter.MinLrcFee⟩)
        (builtFilters env options).tail (normalize env o) _ _
        (by simp only [Filter.filter, hb]; rfl) rfl rfl, rfl⟩
    · have hfee : o.LrcFee ≠ none := hbase.resolve_right hpair
      obtain ⟨fee, hfee⟩ := Option.ne_none_iff_exists'.mp hfee
      by_cases hmin : fee ≤ options.BaseFilter.MinLrcFee
      · have hb := BaseFilter_filter_tiny_fee env ⟨options.BaseFilter.MinLrcFee⟩
          (normalize env o) fee hpair hfee hmin
        exact ⟨_, _, runFilters_rejecting_head env
          (Filter.base ⟨options.BaseFilter.MinLrcFee⟩)
          (builtFilters env options).tail (normalize env o) _ _
          (by simp only [Filter.filter, hb]; rfl) rfl rfl, rfl⟩
      · have hb := BaseFilter_filter_admits env ⟨options.BaseFilter.MinLrcFee⟩
          (normalize env o) fee hpair hfee (not_le.mp hmin)
        obtain ⟨e, hs⟩ := SignFilter_filter_rejects env ⟨⟩ (normalize env o) hsig
        rw [normalize_rehash] at hs
        refine ⟨⟨builtFilters env options, normalize env o, some e⟩, e, ?_, rfl⟩
        simp [builtFilters, runFilters, Filter.filter, hb, hs, FilterRun.lift]
  refine ⟨?_, ?_, ?_⟩
  · intro f x
    obtain ⟨r, h1, _, h4, _⟩ := SignFilter_filter_total env f x
    exact ⟨r, h1, h4⟩
  · intro hbase
    obtain ⟨l, e, hrun, hrej⟩ := key hbase
    obtain ⟨h, h1, h2, _, _, h5⟩ := HandleOrder_of_rejecting_run env _ o l e hrun hrej
    exact ⟨h, e, h1, h2, h5⟩
  · intro h hh
    by_cases hbase : o.LrcFee ≠ none ∨ o.TokenS = o.TokenB
    · obtain ⟨l, e, hrun, hrej⟩ := key hbase
      obtain ⟨h2, h1, h2e, _, _, h5⟩ := HandleOrder_of_rejecting_run env _ o l e hrun hrej
      rw [hh] at h1
      cases h1
      exact ⟨by rw [h2e]; exact Option.some_ne_none e, h5⟩
    · exfalso
      have hnone : o.LrcFee = none := by
        by_contra hc
        exact hbase (Or.inl hc)
      have hpair : ¬ o.TokenB = o.TokenS := fun hc => hbase (Or.inr hc.symm)
      have hb : BaseFilter.filter env ⟨options.BaseFilter.MinLrcFee⟩ (normalize env o)
          = none := by
        have hnone2 : (normalize env o).LrcFee = none := hnone
        have hpair2 : ¬ (normalize env o).TokenB = (normalize env o).TokenS := hpair
        simp [BaseFilter.filter, hpair2, hnone2]
      have hrun : runFilters env (Initialize env options w).filters (normalize env o)
          = none := by
        rw [hfs]
        simp [builtFilters, runFilters, Filter.filter, hb]
      rw [HandleOrder_unfold, hrun] at hh
      cases hh

/-- C3 (amended), at the forged sample order, which Base and both token filters admit. -/
theorem C3_bad_signature_rejected_witness :
    ∃ (h : Handled) (e : String),
      HandleOrder sample.env (Initialize sample.env sample.options World.fresh) sample.forged
        = some h ∧
      h.err = some e ∧ h.world.emitted = World.fresh.emitted :=
  (C3_bad_signature_rejected sample.env sample.options World.fresh sample.forged rfl
    (fun hc => by
      have h6 : (Except.ok 6 : Except String Address) = Except.ok 5 := hc
      cases h6)).2.1 (Or.inl (by decide))

end gateway

/-! ## C4: the base filter -/

namespace gateway

open types

/-- C4: for every order and every minimum fee, `BaseFilter.filter` admits the order if and
only if tokenS ≠ tokenB and the fee is a number strictly greater than `MinLrcFee`; every
order with tokenS = tokenB is rejected with the reason `tokenB == tokenS`, whatever its
fee; and every order whose fee is at most `MinLrcFee` is rejected, with the reason
`lrcFee too tiny` when tokenS ≠ tokenB. A rejection leaves order and filter as they were. -/
theorem C4_base_filter_admits_iff (env : Env) (f : BaseFilter) (o : Order) :
    ((∃ r : FilterRun BaseFilter, f.filter env o = some r ∧ r.valid = true) ↔
      (o.TokenS ≠ o.TokenB ∧ ∃ fee : Int, o.LrcFee = some fee ∧ f.MinLrcFee < fee)) ∧
    (o.TokenS = o.TokenB →
      f.filter env o
        = some ⟨f, o, false, some ("order " ++ env.hashHex o.Hash ++ " tokenB == tokenS")⟩) ∧
    (∀ fee : Int, o.LrcFee = some fee → fee ≤ f.MinLrcFee →
      ∃ r : FilterRun BaseFilter,
        f.filter env o = some r ∧ r.valid = false ∧ r.err ≠ none ∧
        (o.TokenS ≠ o.TokenB →
          r = ⟨f, o, false, some ("order " ++ env.hashHex o.Hash ++ " lrcFee too tiny")⟩)) := by
  refine ⟨⟨?_, ?_⟩, ?_, ?_⟩
  · rintro ⟨r, hr, hvalid⟩
    by_cases hpair : o.TokenS = o.TokenB
    · rw [BaseFilter_filter_self_pair env f o hpair] at hr
      cases hr
      cases hvalid
    · refine ⟨hpair, ?_⟩
      cases hfee : o.LrcFee with
      | none =>
        have h1 : ¬ o.TokenB = o.TokenS := fun h => hpair h.symm
        simp [BaseFilter.filter, h1, hfee] at hr
      | some fee =>
        refine ⟨fee, rfl, ?_⟩
        by_contra hmin
        rw [BaseFilter_filter_tiny_fee env f o fee hpair hfee (not_lt.mp hmin)] at hr
        cases hr
        cases hvalid
  · rintro ⟨hpair, fee, hfee, hmin⟩
    exact ⟨_, BaseFilter_filter_admits env f o fee hpair hfee hmin, rfl⟩
  · exact BaseFilter_filter_self_pair env f o
  · intro fee hfee hmin
    by_cases hpair : o.TokenS = o.TokenB
    · exact ⟨_, BaseFilter_filter_self_pair env f o hpair, rfl, Option.some_ne_none _,
        fun h => absurd hpair h⟩
    · exact ⟨_, BaseFilter_filter_tiny_fee env f o fee hpair hfee hmin, rfl,
        Option.some_ne_none _, fun _ => rfl⟩

/-- C4 at sample inputs: under the minimum fee 1 the sample order (fee 2) is admitted, the
self pair is rejected with the self-pair reason and the order with fee 1 is rejected with
the fee reason. -/
theorem C4_base_filter_admits_iff_witness :
    (∃ r : FilterRun BaseFilter,
      BaseFilter.filter sample.env ⟨1⟩ sample.order = some r ∧ r.valid = true) ∧
    BaseFilter.filter sample.env ⟨1⟩ sample.selfPair
      = some ⟨⟨1⟩, sample.selfPair, false,
          some ("order " ++ sample.env.hashHex sample.selfPair.Hash ++ " tokenB == tokenS")⟩ ∧
    (∃ r : FilterRun BaseFilter,
      BaseFilter.filter sample.env ⟨1⟩ sample.cheap = some r ∧ r.valid = false ∧
      r.err ≠ none ∧
      (sample.cheap.TokenS ≠ sample.cheap.TokenB →
        r = ⟨⟨1⟩, sample.cheap, false,
          some ("order " ++ sample.env.hashHex sample.cheap.Hash ++ " lrcFee too tiny")⟩)) :=
  ⟨(C4_base_filter_admits_iff sample.env ⟨1⟩ sample.order).1.mpr
      ⟨by decide, 2, rfl, by decide⟩,
   (C4_base_filter_admits_iff sample.env ⟨1⟩ sample.selfPair).2.1 (by decide),
   (C4_base_filter_admits_iff sample.env ⟨1⟩ sample.cheap).2.2 1 rfl (by decide)⟩

end gateway

/-! ## C5: the token filters -/

namespace gateway

open types

/-- C5: `TokenSFilter.filter` always returns, and admits an order if and only if its
tokenS is a key of the allow map and not a key of the deny map of that filter;
`TokenBFilter.filter` does the same with tokenB and its own maps; and the verdict and the
error of each filter are the same on two orders that agree on the token of its side. -/
theorem C5_token_filters_admit_iff (env : Env) (fS : TokenSFilter) (fB : TokenBFilter)
    (o : Order) :
    (∃ r : FilterRun TokenSFilter, fS.filter env o = some r ∧
      (r.valid = true ↔
        fS.AllowTokens.has o.TokenS = true ∧ fS.DeniedTokens.has o.TokenS = false)) ∧
    (∃ r : FilterRun TokenBFilter, fB.filter env o = some r ∧
      (r.valid = true ↔
        fB.AllowTokens.has o.TokenB = true ∧ fB.DeniedTokens.has o.TokenB = false)) ∧
    (∀ o2 : Order, o2.TokenS = o.TokenS →
      (fS.filter env o2).map (fun r => (r.valid, r.err))
        = (fS.filter env o).map (fun r => (r.valid, r.err))) ∧
    (∀ o2 : Order, o2.TokenB = o.TokenB →
      (fB.filter env o2).map (fun r => (r.valid, r.err))
        = (fB.filter env o).map (fun r => (r.valid, r.err))) := by
  refine ⟨?_, ?_, ?_, ?_⟩
  · unfold TokenSFilter.filter
    cases ha : fS.AllowTokens.has o.TokenS <;> cases hd : fS.DeniedTokens.has o.TokenS <;>
      simp
  · unfold TokenBFilter.filter
    cases ha : fB.AllowTokens.has o.TokenB <;> cases hd : fB.DeniedTokens.has o.TokenB <;>
      simp
  · intro o2 h2
    unfold TokenSFilter.filter
    rw [h2]
    cases ha : fS.AllowTokens.has o.TokenS <;> cases hd : fS.DeniedTokens.has o.TokenS <;>
      simp
  · intro o2 h2
    unfold TokenBFilter.filter
    rw [h2]
    cases ha : fB.AllowTokens.has o.TokenB <;> cases hd : fB.DeniedTokens.has o.TokenB <;>
      simp

/-- C5 at sample inputs: a filter on the sell side agrees on the sample order and on the
forged one, which carry the same tokenS. -/
theorem C5_token_filters_admit_iff_witness :
    (TokenSFilter.filter sample.env ⟨[(10, true)], [(12, true)]⟩ sample.forged).map
        (fun r => (r.valid, r.err))
      = (TokenSFilter.filter sample.env ⟨[(10, true)], [(12, true)]⟩ sample.order).map
        (fun r => (r.valid, r.err)) :=
  (C5_token_filters_admit_iff sample.env ⟨[(10, true)], [(12, true)]⟩ ⟨[], []⟩
    sample.order).2.2.1 sample.forged rfl

end gateway

/-! ## C6: one event on acceptance, none on rejection -/

namespace gateway

open types

/-- C6: for every order and every filter list, whenever `HandleOrder` returns nil it has
appended exactly one event to the published ones, the accepted order state on the
accepted-order topic, and whenever it returns an error it has published nothing. -/
theorem C6_publishes_once_or_never (env : Env) (w : World) (o : Order) (h : Handled)
    (hh : HandleOrder env w o = some h) :
    (h.err = none →
      h.world.emitted = w.emitted ++
        [(eventemitter.Topic.OrderBookGateway, ⟨h.ord, none, none⟩)]) ∧
    (h.err ≠ none → h.world.emitted = w.emitted) := by
  obtain ⟨hord, _, hcase⟩ := HandleOrder_cases env w o h hh
  rcases hcase with ⟨herr, hem⟩ | ⟨⟨e, herr⟩, hem⟩
  · refine ⟨fun _ => ?_, fun hne => absurd herr hne⟩
    rw [hem, hord]
  · refine ⟨fun hnil => ?_, fun _ => hem⟩
    rw [herr] at hnil
    cases hnil

/-- C6 at the sample order, which is accepted, and at the forged one, which is rejected. -/
theorem C6_publishes_once_or_never_witness :
    (∃ h : Handled,
      HandleOrder sample.env (Initialize sample.env sample.options World.fresh) sample.order
        = some h ∧
      h.err = none ∧
      h.world.emitted = [(eventemitter.Topic.OrderBookGateway, ⟨h.ord, none, none⟩)]) ∧
    (∃ h : Handled,
      HandleOrder sample.env (Initialize sample.env sample.options World.fresh) sample.forged
        = some h ∧
      h.err ≠ none ∧ h.world.emitted = []) :=
  ⟨match HandleOrder_of_run sample.env _ sample.order _ sample_run rfl with
    | ⟨h, h1, h2, _⟩ =>
      ⟨h, h1, h2, (C6_publishes_once_or_never sample.env _ sample.order h h1).1 h2⟩,
   match HandleOrder_of_rejecting_run sample.env _ sample.forged _ _ sample_run_forged rfl with
    | ⟨h, h1, h2, _⟩ =>
      ⟨h, h1, by rw [h2]; exact Option.some_ne_none _,
        (C6_publishes_once_or_never sample.env _ sample.forged h h1).2
          (by rw [h2]; exact Option.some_ne_none _)⟩⟩

end gateway

/-! ## C7: recomputing the hash -/

namespace gateway

open types

/-- C7: two orders with the same canonical content have the same generated hash, so
computing the hash again without touching the content gives the same value. In
particular the recomputation in `SignFilter.filter`, run on the order that `HandleOrder`
has normalized (hash assigned, price derived), always returns and leaves the order, and
so its `Hash`, as normalization set it; and for every filter list, whenever `HandleOrder`
returns, the order carries the hash computed first, and so does the `RawOrder` of the
state it publishes on acceptance. -/
theorem C7_hash_recomputation_is_stable (env : Env) (w : World) (o : Order) :
    (∀ o2 : Order, o2.content = o.content → o2.GenerateHash env = o.GenerateHash env) ∧
    (normalize env o).GenerateHash env = o.GenerateHash env ∧
    (∀ f : SignFilter, ∃ r : FilterRun SignFilter,
      f.filter env (normalize env o) = some r ∧ r.ord = normalize env o ∧
      r.ord.Hash = o.GenerateHash env) ∧
    (∀ h : Handled, HandleOrder env w o = some h →
      h.ord.Hash = o.GenerateHash env ∧
      (h.err = none →
        ∃ st : OrderState,
          h.world.emitted = w.emitted ++ [(eventemitter.Topic.OrderBookGateway, st)] ∧
          st.RawOrder.Hash = o.GenerateHash env)) := by
  refine ⟨?_, rfl, ?_, ?_⟩
  · intro o2 h2
    unfold Order.GenerateHash
    rw [h2]
  · intro f
    obtain ⟨r, h1, h2, _⟩ := SignFilter_filter_total env f (normalize env o)
    rw [normalize_rehash] at h2
    exact ⟨r, h1, h2, by rw [h2]; rfl⟩
  · intro h hh
    obtain ⟨hord, _, hcase⟩ := HandleOrder_cases env w o h hh
    refine ⟨by rw [hord]; rfl, fun hnil => ?_⟩
    rcases hcase with ⟨_, hem⟩ | ⟨⟨e, herr⟩, _⟩
    · exact ⟨_, hem, rfl⟩
    · rw [herr] at hnil
      cases hnil

/-- C7 at the sample order: the order that comes out of `HandleOrder` carries the hash
generated from the input. -/
theorem C7_hash_recomputation_is_stable_witness :
    ∃ h : Handled,
      HandleOrder sample.env (Initialize sample.env sample.options World.fresh) sample.order
        = some h ∧
      h.ord.Hash = sample.order.GenerateHash sample.env :=
  match HandleOrder_of_run sample.env _ sample.order _ sample_run rfl with
  | ⟨h, h1, _⟩ =>
    ⟨h, h1, ((C7_hash_recomputation_is_stable sample.env _ sample.order).2.2.2 h h1).1⟩

end gateway

/-! ## C8: what a filter may change -/

namespace gateway

open types

/-- C8, as stated, fails: the sample order arrives with `Hash = 0`, and
`SignFilter.filter` returns it with `Hash = 48`, the recomputed hash. -/
theorem C8_counterexample_sign_filter_writes_hash :
    ∃ r : FilterRun SignFilter,
      SignFilter.filter sample.env ⟨⟩ sample.order = some r ∧
      sample.order.Hash = 0 ∧ r.ord.Hash = 48 ∧ r.ord ≠ sample.order := by
  refine ⟨_, rfl, rfl, rfl, ?_⟩
  intro hEq
  have hH := congrArg Order.Hash hEq
  revert hH
  show (48 : Nat) = 0 → False
  decide

/-- C8 (amended): `BaseFilter.filter`, `TokenSFilter.filter` and `TokenBFilter.filter`
leave every field of the order and of the filter unchanged, for every order.
`SignFilter.filter` leaves the filter and every field of the order other than `Hash`
unchanged and stores the recomputed hash in `Hash`; so it leaves the whole order
unchanged whenever `Hash` already holds the generated hash, as it does inside
`HandleOrder`. -/
theorem C8_filters_frame (env : Env) (o : Order) :
    (∀ (f : BaseFilter) (r : FilterRun BaseFilter),
      f.filter env o = some r → r.self = f ∧ r.ord = o) ∧
    (∀ (f : TokenSFilter) (r : FilterRun TokenSFilter),
      f.filter env o = some r → r.self = f ∧ r.ord = o) ∧
    (∀ (f : TokenBFilter) (r : FilterRun TokenBFilter),
      f.filter env o = some r → r.self = f ∧ r.ord = o) ∧
    (∀ (f : SignFilter) (r : FilterRun SignFilter),
      f.filter env o = some r →
        r.self = f ∧ r.ord = { o with Hash := o.GenerateHash env } ∧
        r.ord.content = o.content ∧ r.ord.Price = o.Price ∧
        (o.Hash = o.GenerateHash env → r.ord = o)) ∧
    (∀ (f : SignFilter) (r : FilterRun SignFilter),
      f.filter env (normalize env o) = some r → r.self = f ∧ r.ord = normalize env o) := by
  refine ⟨?_, ?_, ?_, ?_, ?_⟩
  · exact fun f r h => BaseFilter_filter_frame env f o r h
  · exact fun f r h => TokenSFilter_filter_frame env f o r h
  · exact fun f r h => TokenBFilter_filter_frame env f o r h
  · intro f r h
    obtain ⟨h1, h2⟩ := SignFilter_filter_frame env f o r h
    refine ⟨h1, h2, by rw [h2]; rfl, by rw [h2], fun hhash => ?_⟩
    rw [h2, ← hhash]
  · intro f r h
    obtain ⟨h1, h2⟩ := SignFilter_filter_frame env f (normalize env o) r h
    exact ⟨h1, by rw [h2, normalize_rehash]⟩

/-- C8 (amended) at the sample order: the base filter returns it untouched. -/
theorem C8_filters_frame_witness :
    ∃ r : FilterRun BaseFilter,
      BaseFilter.filter sample.env ⟨1⟩ sample.order = some r ∧
      r.self = ⟨1⟩ ∧ r.ord = sample.order :=
  ⟨_, rfl, (C8_filters_frame sample.env sample.order).1 ⟨1⟩ _ rfl⟩

end gateway

/-! ## C9: batch correspondence -/

namespace ethaccessor

/-- C9: for every list of K requests and every batchSize ≥ 1, the requests are partitioned
into ⌈K / batchSize⌉ chunks (the number `n = (K + batchSize - 1) / batchSize`, for which
`K ≤ n * batchSize < K + batchSize`) of at least one and at most batchSize requests that
together are the request list in its order. Whenever `BatchTransactions` returns nil it has
made one round trip per chunk, and the request at every position holds the answer to the
request that was at that position; so when exactly request `i` names a hash the node does
not know, exactly request `i` has a non-nil `Err`, and each other request has a nil `Err`
and the transaction of its hash as content. `BatchTransactionRecipients` does the same
with receipts. -/
theorem C9_batch_correspondence (a : EthNodeAccessor) (trips batchSize : Nat)
    (hbs : 1 ≤ batchSize)
    (reqs : List BatchTransactionReq) (rcpts : List BatchTransactionRecipientReq) :
    ((chunks batchSize reqs).flatten = reqs ∧
      (chunks batchSize reqs).length = (reqs.length + batchSize - 1) / batchSize ∧
      (∀ c ∈ chunks batchSize reqs, 1 ≤ c.length ∧ c.length ≤ batchSize) ∧
      reqs.length ≤ (reqs.length + batchSize - 1) / batchSize * batchSize ∧
      (reqs.length + batchSize - 1) / batchSize * batchSize < reqs.length + batchSize) ∧
    ((chunks batchSize rcpts).flatten = rcpts ∧
      (chunks batchSize rcpts).length = (rcpts.length + batchSize - 1) / batchSize ∧
      (∀ c ∈ chunks batchSize rcpts, 1 ≤ c.length ∧ c.length ≤ batchSize)) ∧
    ((a.BatchTransactions trips batchSize reqs).err = none →
      (a.BatchTransactions trips batchSize reqs).trips
        = trips + (reqs.length + batchSize - 1) / batchSize ∧
      (a.BatchTransactions trips batchSize reqs).reqs.length = reqs.length ∧
      (∀ j : Nat, (a.BatchTransactions trips batchSize reqs).reqs[j]?
        = (reqs[j]?).map (fillTransaction a)) ∧
      (∀ i : Nat, i < reqs.length →
        (∀ (j : Nat) (q : BatchTransactionReq), reqs[j]? = some q →
          ((∃ e, a.transaction q.TxHash = .error e) ↔ j = i)) →
        ∀ (j : Nat) (q : BatchTransactionReq), reqs[j]? = some q →
          ∃ q2 : BatchTransactionReq,
            (a.BatchTransactions trips batchSize reqs).reqs[j]? = some q2 ∧
            q2.TxHash = q.TxHash ∧
            (j = i → q2.Err ≠ none) ∧
            (j ≠ i → q2.Err = none ∧ a.transaction q.TxHash = .ok q2.TxContent))) ∧
    ((a.BatchTransactionRecipients trips batchSize rcpts).err = none →
      (a.BatchTransactionRecipients trips batchSize rcpts).trips
        = trips + (rcpts.length + batchSize - 1) / batchSize ∧
      (a.BatchTransactionRecipients trips batchSize rcpts).reqs.length = rcpts.length ∧
      (∀ j : Nat, (a.BatchTransactionRecipients trips batchSize rcpts).reqs[j]?
        = (rcpts[j]?).map (fillRecipient a)) ∧
      (∀ i : Nat, i < rcpts.length →
        (∀ (j : Nat) (q : BatchTransactionRecipientReq), rcpts[j]? = some q →
          ((∃ e, a.receipt q.TxHash = .error e) ↔ j = i)) →
        ∀ (j : Nat) (q : BatchTransactionRecipientReq), rcpts[j]? = some q →
          ∃ q2 : BatchTransactionRecipientReq,
            (a.BatchTransactionRecipients trips batchSize rcpts).reqs[j]? = some q2 ∧
            q2.TxHash = q.TxHash ∧
            (j = i → q2.Err ≠ none) ∧
            (j ≠ i → q2.Err = none ∧ a.receipt q.TxHash = .ok q2.TxContent))) := by
  obtain ⟨c1, c2, c3⟩ := chunks_spec batchSize hbs reqs
  obtain ⟨d1, d2, d3⟩ := chunks_spec batchSize hbs rcpts
  obtain ⟨b1, b2⟩ := ceil_bounds reqs.length batchSize hbs
  refine ⟨⟨c1, c2, c3, b1, b2⟩, ⟨d1, d2, d3⟩, ?_, ?_⟩
  · intro herr
    obtain ⟨t1, t2⟩ := batch_ok a.fault (fillTransaction a) trips batchSize hbs reqs herr
    have hreqs : (a.BatchTransactions trips batchSize reqs).reqs
        = reqs.map (fillTransaction a) := t2
    refine ⟨t1, ?_, ?_, ?_⟩
    · rw [hreqs, List.length_map]
    · intro j
      rw [hreqs, List.getElem?_map]
    · intro i _ hbad j q hq
      obtain ⟨s1, s2, s3⟩ := fillTransaction_spec a q
      refine ⟨fillTransaction a q, ?_, s1, ?_, ?_⟩
      · rw [hreqs, List.getElem?_map, hq]
        rfl
      · intro hji
        exact s2 ((hbad j q hq).mpr hji)
      · intro hji
        exact s3 (fun hex => hji ((hbad j q hq).mp hex))
  · intro herr
    obtain ⟨t1, t2⟩ := batch_ok a.fault (fillRecipient a) trips batchSize hbs rcpts herr
    have hreqs : (a.BatchTransactionRecipients trips batchSize rcpts).reqs
        = rcpts.map (fillRecipient a) := t2
    refine ⟨t1, ?_, ?_, ?_⟩
    · rw [hreqs, List.length_map]
    · intro j
      rw [hreqs, List.getElem?_map]
    · intro i _ hbad j q hq
      obtain ⟨s1, s2, s3⟩ := fillRecipient_spec a q
      refine ⟨fillRecipient a q, ?_, s1, ?_, ?_⟩
      · rw [hreqs, List.getElem?_map, hq]
        rfl
      · intro hji
        exact s2 ((hbad j q hq).mpr hji)
      · intro hji
        exact s3 (fun hex => hji ((hbad j q hq).mp hex))

/-- C9 at the five sample requests with batchSize 2, of which only the third names an
unknown hash: the call returns nil after ⌈5 / 2⌉ = 3 round trips, the request at each
position holds the answer to the request that was there, and only the third has an error. -/
theorem C9_batch_correspondence_witness :
    (sample.accessor.BatchTransactions 0 2 sample.requests).err = none ∧
    (sample.accessor.BatchTransactions 0 2 sample.requests).trips = 0 + (5 + 2 - 1) / 2 ∧
    (sample.accessor.BatchTransactions 0 2 sample.requests).reqs.length = 5 ∧
    (∀ j : Nat, (sample.accessor.BatchTransactions 0 2 sample.requests).reqs[j]?
      = (sample.requests[j]?).map (fillTransaction sample.accessor)) ∧
    (∀ (j : Nat) (q : BatchTransactionReq), sample.requests[j]? = some q →
      ∃ q2 : BatchTransactionReq,
        (sample.accessor.BatchTransactions 0 2 sample.requests).reqs[j]? = some q2 ∧
        q2.TxHash = q.TxHash ∧
        (j = 2 → q2.Err ≠ none) ∧
        (j ≠ 2 → q2.Err = none ∧ sample.accessor.transaction q.TxHash = .ok q2.TxContent)) :=
  ⟨rfl,
   ((C9_batch_correspondence sample.accessor 0 2 (by decide) sample.requests
      sample.receiptRequests).2.2.1 rfl).1,
   ((C9_batch_correspondence sample.accessor 0 2 (by decide) sample.requests
      sample.receiptRequests).2.2.1 rfl).2.1,
   ((C9_batch_correspondence sample.accessor 0 2 (by decide) sample.requests
      sample.receiptRequests).2.2.1 rfl).2.2.1,
   ((C9_batch_correspondence sample.accessor 0 2 (by decide) sample.requests
      sample.receiptRequests).2.2.1 rfl).2.2.2 2 (by decide) sample_only_third_unknown⟩

end ethaccessor

/-! ## C10: block iteration coverage -/

namespace ethaccessor

/-- C10, as stated, fails: `Next` surfaces a transport error to its caller. On the node
whose first round trip fails, the scan of `[5, 7)` with batch size 0 returns the error on
the first call and the blocks 5 and 6 on the next two: the first `end - start` calls do
not return the two blocks, and the call after them does not signal the end of the range. -/
theorem C10_counterexample_transport_fault :
    (5 : Nat) ≤ 7 ∧
    nexts sample.flaky (7 - 5 + 1) (sample.flaky.BlockIterator 5 7 false 0) 0
      = [NextResult.fault "node unreachable",
         NextResult.block (sample.flaky.blockAt false 5),
         NextResult.block (sample.flaky.blockAt false 6)] ∧
    nexts sample.flaky (7 - 5 + 1) (sample.flaky.BlockIterator 5 7 false 0) 0
      ≠ (List.range' 5 (7 - 5)).map (fun n => NextResult.block (sample.flaky.blockAt false n))
          ++ List.replicate 1 NextResult.finished := by
  have hrun : nexts sample.flaky (7 - 5 + 1) (sample.flaky.BlockIterator 5 7 false 0) 0
      = [NextResult.fault "node unreachable",
         NextResult.block (sample.flaky.blockAt false 5),
         NextResult.block (sample.flaky.blockAt false 6)] := rfl
  refine ⟨by decide, hrun, ?_⟩
  rw [hrun]
  intro h
  have hhead := (List.cons.inj h).1
  cases hhead

/-- C10 (amended): for every start ≤ end, every includeFullTx flag and every batch size, on
a node whose round trips all go through, the successive calls of `Next` on
`BlockIterator(start, end, …)` return exactly `end - start` blocks, those of the numbers
start, start+1, …, end-1 in this order (strictly increasing, each once), and every call
after the last block signals the end of the range. -/
theorem C10_block_iteration_coverage (a : EthNodeAccessor) (startBlock endBlock : Nat)
    (includeFullTx : Bool) (batchSize : Nat)
    (hle : startBlock ≤ endBlock) (hfault : ∀ n, a.fault n = none) (trips j : Nat) :
    nexts a (endBlock - startBlock + j)
        (a.BlockIterator startBlock endBlock includeFullTx batchSize) trips
      = (List.range' startBlock (endBlock - startBlock)).map
          (fun n => NextResult.block (a.blockAt includeFullTx n))
        ++ List.replicate j NextResult.finished ∧
    ((List.range' startBlock (endBlock - startBlock)).map (a.blockAt includeFullTx)).length
      = endBlock - startBlock ∧
    ((List.range' startBlock (endBlock - startBlock)).map (a.blockAt includeFullTx)).map
        (fun b => b.Number)
      = List.range' startBlock (endBlock - startBlock) ∧
    (List.range' startBlock (endBlock - startBlock)).Pairwise (fun x y => x < y) ∧
    (∀ k : Nat, k < endBlock - startBlock →
      (List.range' startBlock (endBlock - startBlock))[k]? = some (startBlock + k)) := by
  refine ⟨?_, ?_, ?_, ?_, ?_⟩
  · exact nexts_from a hfault (endBlock - startBlock) _ trips startBlock endBlock
      includeFullTx
      (BlockIterator_standsAt_start a startBlock endBlock includeFullTx batchSize hle)
      (by omega) j
  · rw [List.length_map, List.length_range']
  · rw [List.map_map]
    exact List.map_id _
  · exact List.pairwise_lt_range' _ _
  · intro k hk
    rw [List.getElem?_range' _ _ hk]
    simp

/-- C10 (amended) at the scan of the test file: start = 4884729, end = start + 2, no full bodies,
batch size 0. Two calls return the two blocks and the third signals the end. -/
theorem C10_block_iteration_coverage_witness :
    nexts sample.accessor (4884731 - 4884729 + 1)
        (sample.accessor.BlockIterator 4884729 4884731 false 0) 0
      = (List.range' 4884729 (4884731 - 4884729)).map
          (fun n => NextResult.block (sample.accessor.blockAt false n))
        ++ List.replicate 1 NextResult.finished :=
  (C10_block_iteration_coverage sample.accessor 4884729 4884731 false 0 (by decide)
    (fun _ => rfl) 0 1).1

end ethaccessor

/-! ## C11: the allow map is consulted before the deny map -/

namespace gateway

open types

/-- C11: for every order whose tokenS is not a key of the allow map of a `TokenSFilter`,
and so for every order whose tokenS is moreover a key of its deny map, the filter rejects
with the reason `tokenS filter allowTokens do not contain <token>`, which is never the
reason `tokenS filter deniedTokens contain <token>` of any token; and the filter returns the deny
reason exactly when tokenS is a key of both maps. `TokenBFilter` does the same with
tokenB. -/
theorem C11_allow_checked_before_deny (env : Env) (fS : TokenSFilter) (fB : TokenBFilter)
    (o : Order) :
    (fS.AllowTokens.has o.TokenS = false →
      fS.filter env o = some ⟨fS, o, false,
        some ("tokenS filter allowTokens do not contain " ++ env.addressHex o.TokenS)⟩ ∧
      (∀ t : String, "tokenS filter allowTokens do not contain " ++ env.addressHex o.TokenS
        ≠ "tokenS filter deniedTokens contain " ++ t)) ∧
    ((∃ r : FilterRun TokenSFilter, fS.filter env o = some r ∧ r.valid = false ∧
        r.err = some ("tokenS filter deniedTokens contain " ++ env.addressHex o.TokenS)) ↔
      (fS.AllowTokens.has o.TokenS = true ∧ fS.DeniedTokens.has o.TokenS = true)) ∧
    (fB.AllowTokens.has o.TokenB = false →
      fB.filter env o = some ⟨fB, o, false,
        some ("tokenB filter allowTokens do not contain " ++ env.addressHex o.TokenB)⟩ ∧
      (∀ t : String, "tokenB filter allowTokens do not contain " ++ env.addressHex o.TokenB
        ≠ "tokenB filter deniedTokens contain " ++ t)) ∧
    ((∃ r : FilterRun TokenBFilter, fB.filter env o = some r ∧ r.valid = false ∧
        r.err = some ("tokenB filter deniedTokens contain " ++ env.addressHex o.TokenB)) ↔
      (fB.AllowTokens.has o.TokenB = true ∧ fB.DeniedTokens.has o.TokenB = true)) := by
  obtain ⟨s1, s2, s3⟩ := TokenSFilter_filter_cases env fS o
  obtain ⟨b1, b2, b3⟩ := TokenBFilter_filter_cases env fB o
  refine ⟨fun ha => ⟨s1 ha, fun t => allow_reason_ne_deny_reason_S _ t⟩, ⟨?_, ?_⟩,
    fun ha => ⟨b1 ha, fun t => allow_reason_ne_deny_reason_B _ t⟩, ⟨?_, ?_⟩⟩
  · rintro ⟨r, hr, _, herr⟩
    cases ha : fS.AllowTokens.has o.TokenS with
    | false =>
      rw [s1 ha] at hr
      cases hr
      simp only [Option.some.injEq] at herr
      exact absurd herr (allow_reason_ne_deny_reason_S _ _)
    | true =>
      cases hd : fS.DeniedTokens.has o.TokenS with
      | false =>
        rw [s3 ha hd] at hr
        cases hr
        cases herr
      | true => exact ⟨rfl, rfl⟩
  · rintro ⟨ha, hd⟩
    exact ⟨_, s2 ha hd, rfl, rfl⟩
  · rintro ⟨r, hr, _, herr⟩
    cases ha : fB.AllowTokens.has o.TokenB with
    | false =>
      rw [b1 ha] at hr
      cases hr
      simp only [Option.some.injEq] at herr
      exact absurd herr (allow_reason_ne_deny_reason_B _ _)
    | true =>
      cases hd : fB.DeniedTokens.has o.TokenB with
      | false =>
        rw [b3 ha hd] at hr
        cases hr
        cases herr
      | true => exact ⟨rfl, rfl⟩
  · rintro ⟨ha, hd⟩
    exact ⟨_, b2 ha hd, rfl, rfl⟩

/-- C11 at a filter that denies token 10 without allowing it: the sample order, which
sells token 10, is rejected with the allow reason. -/
theorem C11_allow_checked_before_deny_witness :
    TokenSFilter.filter sample.env ⟨[(11, true)], [(10, true)]⟩ sample.order
      = some ⟨⟨[(11, true)], [(10, true)]⟩, sample.order, false,
          some ("tokenS filter allowTokens do not contain "
            ++ sample.env.addressHex sample.order.TokenS)⟩ :=
  ((C11_allow_checked_before_deny sample.env ⟨[(11, true)], [(10, true)]⟩ ⟨[], []⟩
    sample.order).1 (by decide)).1

end gateway

/-! ## C12: a rejection always carries an error -/

namespace gateway

open types

/-- C12: whenever one of the four filters returns false it returns a non-nil error with
it, and on an order with a non-nil `LrcFee` each of them returns. Therefore, for every
filter list and every order with a non-nil `LrcFee`, `HandleOrder` returns (the call
`err.Error()` never meets a nil error), and the error it returns is non-nil exactly when
some filter of the list rejects the order it is handed. -/
theorem C12_rejection_carries_error (env : Env) (w : World) (o : Order)
    (hfee : o.LrcFee ≠ none) :
    (∀ (v : Filter) (x : Order) (r : FilterRun Filter),
      v.filter env x = some r → r.valid = false → r.err ≠ none) ∧
    (∀ v : Filter, ∃ r : FilterRun Filter,
      v.filter env o = some r ∧ (r.valid = false → r.err ≠ none)) ∧
    (∃ h : Handled, HandleOrder env w o = some h ∧
      (h.err ≠ none ↔
        ∃ v ∈ w.filters, ∃ r : FilterRun Filter,
          v.filter env (normalize env o) = some r ∧ r.valid = false)) := by
  have hrej : ∀ (v : Filter) (x : Order) (r : FilterRun Filter),
      v.filter env x = some r → r.valid = false → r.err ≠ none := by
    intro v x r hr hv
    obtain ⟨e, he⟩ := Filter_filter_reject_error env v x r hr hv
    rw [he]
    exact Option.some_ne_none e
  refine ⟨hrej, ?_, ?_⟩
  · intro v
    obtain ⟨r, hr⟩ := Filter_filter_returns env v o hfee
    exact ⟨r, hr, hrej v o r hr⟩
  · obtain ⟨l, hl, hiff⟩ := runFilters_returns env w.filters (normalize env o)
      (normalize_hashed env o) hfee
    cases hr : l.rejected with
    | none =>
      obtain ⟨h, h1, h2, _⟩ := HandleOrder_of_run env w o l hl hr
      refine ⟨h, h1, ?_⟩
      rw [← hiff, hr, h2]
    | some e =>
      obtain ⟨h, h1, h2, _⟩ := HandleOrder_of_rejecting_run env w o l e hl hr
      refine ⟨h, h1, ?_⟩
      rw [← hiff, hr, h2]

/-- C12 at the forged sample order, whose fee is 2: `HandleOrder` returns, with a non-nil
error exactly when a filter of the list rejects the normalized order. -/
theorem C12_rejection_carries_error_witness :
    ∃ h : Handled,
      HandleOrder sample.env (Initialize sample.env sample.options World.fresh) sample.forged
        = some h ∧
      (h.err ≠ none ↔
        ∃ v ∈ (Initialize sample.env sample.options World.fresh).filters,
          ∃ r : FilterRun Filter,
            v.filter sample.env (normalize sample.env sample.forged) = some r ∧
            r.valid = false) :=
  (C12_rejection_carries_error sample.env
    (Initialize sample.env sample.options World.fresh) sample.forged (by decide)).2.2

end gateway

/-! ## C13: calling `Initialize` twice -/

namespace gateway

open types

/-- C13: `Initialize` appends to the filter list. Starting from an empty list, one call
leaves exactly the four filters Base, Sign, TokenS, TokenB and a second call with the same
options leaves eight, the same four again; yet for every order the outcome of
`HandleOrder` after two calls — whether it returns, the error it returns, the order it
leaves and the events published — is the outcome after one call. -/
theorem C13_initialize_twice (env : Env) (options : config.GatewayFiltersOptions)
    (w : World) (o : Order) (hw : w.filters = []) :
    (Initialize env options w).filters =
      [Filter.base ⟨options.BaseFilter.MinLrcFee⟩,
       Filter.sign ⟨⟩,
       Filter.tokenS ⟨fillTokens env options.TokenSFilter.Allow [],
                      fillTokens env options.TokenSFilter.Denied []⟩,
       Filter.tokenB ⟨fillTokens env options.TokenBFilter.Allow [],
                      fillTokens env options.TokenBFilter.Denied []⟩] ∧
    (Initialize env options w).filters.length = 4 ∧
    (Initialize env options (Initialize env options w)).filters
      = (Initialize env options w).filters ++ (Initialize env options w).filters ∧
    (Initialize env options (Initialize env options w)).filters.length = 8 ∧
    (HandleOrder env (Initialize env options (Initialize env options w)) o).map
        (fun h => (h.err, h.ord, h.world.emitted))
      = (HandleOrder env (Initialize env options w) o).map
        (fun h => (h.err, h.ord, h.world.emitted)) := by
  have h1 : (Initialize env options w).filters = builtFilters env options := by
    rw [Initialize_filters, hw, List.nil_append]
  have h2 : (Initialize env options (Initialize env options w)).filters
      = builtFilters env options ++ builtFilters env options := by
    rw [Initialize_filters, h1]
  refine ⟨h1, by rw [h1]; rfl, by rw [h2, h1], by rw [h2]; rfl, ?_⟩
  apply HandleOrder_outcome_congr
  · rfl
  · rw [h2, h1]
    exact runFilters_twice env _ _ (normalize_hashed env o)

/-- C13 at the sample configuration and the sample order, from the fresh world. -/
theorem C13_initialize_twice_witness :
    (Initialize sample.env sample.options
        (Initialize sample.env sample.options World.fresh)).filters.length = 8 ∧
    (HandleOrder sample.env
        (Initialize sample.env sample.options
          (Initialize sample.env sample.options World.fresh)) sample.order).map
        (fun h => (h.err, h.ord, h.world.emitted))
      = (HandleOrder sample.env
          (Initialize sample.env sample.options World.fresh) sample.order).map
        (fun h => (h.err, h.ord, h.world.emitted)) :=
  ⟨(C13_initialize_twice sample.env sample.options World.fresh sample.order rfl).2.2.2.1,
   (C13_initialize_twice sample.env sample.options World.fresh sample.order rfl).2.2.2.2⟩

end gateway
